import Mathlib

/-!
Verification development for the Consul-backed service registry watcher
(`registry/consul/consul.go`).  The Go source is shallowly embedded:

* pure computations (tag scanning, instance-map construction, registry
  construction) become Lean functions;
* each loop body (`watchServices`, `watchService`, the dispatch loop in
  `Run`) becomes a pure step function from its inputs (current state and
  the long-poll response) to its next state together with a trace of the
  primitive effects it performs (lock/unlock, field mutations, channel
  sends), in source order;
* for claims about interleavings of the concurrent goroutines, a
  small-step system model is given in which a scheduler directive list
  picks which goroutine performs its next step.
-/

/-! ## Go maps

A Go map is modelled as an association list; `m[k] = v` replaces the
binding in place when the key is present and appends otherwise, and
lookup finds the unique binding.  (Go map iteration order is
unspecified; the model iterates in list order, which is one of the
admissible orders.) -/

def GoMap (α β : Type) : Type := List (α × β)

instance {α β : Type} [DecidableEq α] [DecidableEq β] : DecidableEq (GoMap α β) :=
  inferInstanceAs (DecidableEq (List (α × β)))

instance {α β : Type} [Repr α] [Repr β] : Repr (GoMap α β) :=
  inferInstanceAs (Repr (List (α × β)))

instance {α β : Type} : EmptyCollection (GoMap α β) := ⟨([] : List (α × β))⟩

def GoMap.insert {α β : Type} [BEq α] : GoMap α β → α → β → GoMap α β
  | [], k, v => [(k, v)]
  | (k', v') :: rest, k, v =>
      if k' == k then (k', v) :: rest
      else (k', v') :: GoMap.insert rest k v

def GoMap.lookup {α β : Type} [BEq α] : GoMap α β → α → Option β
  | [], _ => none
  | (k', v') :: rest, k => if k' == k then some v' else GoMap.lookup rest k

def GoMap.contains {α β : Type} [BEq α] (m : GoMap α β) (k : α) : Bool :=
  (GoMap.lookup m k).isSome

def GoMap.erase {α β : Type} [BEq α] : GoMap α β → α → GoMap α β
  | [], _ => []
  | (k', v') :: rest, k =>
      if k' == k then rest else (k', v') :: GoMap.erase rest k

def GoMap.size {α β : Type} (m : GoMap α β) : Nat := List.length m

def GoMap.entries {α β : Type} (m : GoMap α β) : List (α × β) := m

/-! ## Data model of the `registry` package

Modelled from the spec: the `registry` package itself is not under
`src/`; only its use sites in `consul.go` are.  The shapes below follow
§3 of the spec and the field accesses in `consul.go`
(`ServiceUpdate{ServiceName, UpdateType, Tag, ServiceInstances}`,
`ServiceInstance{Host, Address, Tags, Port}`, `Config{Addresses,
TagsToWatch}`, update kinds NEW/CHANGED/DELETED). -/

inductive UpdateType : Type
  | NEW
  | CHANGED
  | DELETED
deriving DecidableEq, Repr

structure ServiceInstance : Type where
  Host : String
  Address : String
  Tags : List String
  Port : String
deriving DecidableEq, Repr

structure ServiceUpdate : Type where
  ServiceName : String
  updateType : UpdateType
  ServiceInstances : GoMap String ServiceInstance
  Tag : String
deriving DecidableEq, Repr

structure Config : Type where
  Addresses : List String
  TagsToWatch : List String
deriving DecidableEq, Repr

/-! ## Retry/backoff constants (consul.go lines 16-19), in seconds. -/

def consulWatchTimeout : Nat := 30

def consulRetryInterval : Nat := 15

/-! ## `consulService` (consul.go lines 34-42)

The embedded `registry.Service` contributes `Name` and `Instances`.
The `done` channel is modelled by the boolean `doneClosed` (`close`
sets it). -/

structure ConsulService : Type where
  Name : String
  Instances : GoMap String ServiceInstance
  lastIndex : Nat
  removed : Bool
  running : Bool
  doneClosed : Bool
  tag : String
deriving DecidableEq, Repr

/-! ## `NewRegistry` (consul.go lines 44-66)

Client construction (`consul.NewClient`) is external; it is abstracted
as an oracle from the chosen address to either a client or an error
message.  Construction errors from the oracle are wrapped as
`clientError`, keeping `ErrNoAddress` distinguishable. -/

structure ConsulClient : Type where
  Address : String
deriving DecidableEq, Repr

inductive RegistryError : Type
  | ErrNoAddress
  | clientError (msg : String)
deriving DecidableEq, Repr

structure ConsulRegistry : Type where
  client : ConsulClient
  watchedServices : GoMap String ConsulService
  tagsToWatch : List String

def NewRegistry (newClient : String → Except String ConsulClient)
    (config : Config) : Except RegistryError ConsulRegistry :=
  -- validate arguments (line 47)
  if config.Addresses.length < 1 then
    Except.error RegistryError.ErrNoAddress
  else
    -- select first address alone (line 54)
    match newClient (config.Addresses.headD "") with
    | Except.error msg => Except.error (RegistryError.clientError msg)
    | Except.ok client =>
        Except.ok { client := client, watchedServices := ∅,
                    tagsToWatch := config.TagsToWatch }

/-! ## Tag scanning (consul.go lines 153-173)

The nested loops over a service's tag list and the configured
allow-list.  There is no `break`: every match overwrites `properTag`. -/

structure TagScanState : Type where
  ignore : Bool
  properTag : String
deriving DecidableEq, Repr

def scanOneTag (tagsToWatch : List String) (st : TagScanState)
    (tag : String) : TagScanState :=
  tagsToWatch.foldl
    (fun acc tagToWatch =>
      if tag == tagToWatch then { ignore := false, properTag := tag } else acc)
    st

def scanTags (tagsToWatch : List String) (v : List String) : TagScanState :=
  v.foldl (scanOneTag tagsToWatch) { ignore := true, properTag := "" }

/-- The tag-selection policy as worded by the spec ("the first matching
tag found; first match wins"), for comparison with `scanTags`. -/
def specFirstMatchingTag (tagsToWatch : List String)
    (v : List String) : Option String :=
  v.find? (fun tag => tagsToWatch.contains tag)

/-! ## Instance-map construction (consul.go lines 221-230) -/

structure CatalogNode : Type where
  Node : String
  Address : String
  ServiceAddress : String
  ServicePort : Int
  ServiceTags : List String
deriving DecidableEq, Repr

/-- `fmt.Sprintf("%s:%d", node.ServiceAddress, node.ServicePort)`. -/
def instanceKey (n : CatalogNode) : String :=
  n.ServiceAddress ++ ":" ++ toString n.ServicePort

/-- The `registry.ServiceInstance` built at lines 224-229;
`Port` is `strconv.Itoa(node.ServicePort)`. -/
def nodeToInstance (n : CatalogNode) : ServiceInstance :=
  { Host := n.Node, Address := n.Address, Tags := n.ServiceTags,
    Port := toString n.ServicePort }

def buildInstances (nodes : List CatalogNode) : GoMap String ServiceInstance :=
  nodes.foldl (fun m n => GoMap.insert m (instanceKey n) (nodeToInstance n)) ∅

/-! ## Primitive effects of one loop iteration

Each loop body is embedded as a pure function from its state and the
long-poll response to the next state, a list of the primitive effects
it performs (in source order), and whether the loop returns. -/

inductive Ev : Type
  | logError (msg : String)
  | sleep (d : Nat)
  | lock
  | unlock
  | setLocalIndex (i : Nat)
  | setRecLastIndex (name : String) (i : Nat)
  | setRecInstances (name : String)
  | setRecRemoved (name : String)
  | setRecRunning (name : String)
  | cacheInsert (name : String)
  | cacheDelete (name : String)
  | sendUpdate (name : String)
  | closeDone (name : String)
  | emit (u : ServiceUpdate)
  | spawnWatcher (name : String)
  | ret
deriving DecidableEq, Repr

/-- Mutations of a record's fields or of the cache map — the targets of
the spec's shared-resource policy (`instances`, `lastIndex`, `running`,
`removed`, and the cache itself). -/
def Ev.isRecMutation : Ev → Bool
  | Ev.setRecLastIndex _ _ => true
  | Ev.setRecInstances _ => true
  | Ev.setRecRemoved _ => true
  | Ev.setRecRunning _ => true
  | Ev.cacheInsert _ => true
  | Ev.cacheDelete _ => true
  | _ => false

def Ev.isEmit : Ev → Bool
  | Ev.emit _ => true
  | _ => false

def Ev.isLockOp : Ev → Bool
  | Ev.lock => true
  | Ev.unlock => true
  | _ => false

/-- Split a trace by lock depth: the events performed while the lock is
held, and those performed without it (lock/unlock markers excluded). -/
def splitByLock : List Ev → Nat → List Ev × List Ev
  | [], _ => ([], [])
  | Ev.lock :: rest, d => splitByLock rest (d + 1)
  | Ev.unlock :: rest, d => splitByLock rest (d - 1)
  | e :: rest, d =>
      let r := splitByLock rest d
      if d > 0 then (e :: r.1, r.2) else (r.1, e :: r.2)

def heldEvents (tr : List Ev) : List Ev := (splitByLock tr 0).1

def unheldEvents (tr : List Ev) : List Ev := (splitByLock tr 0).2

/-- The events of `tr` following the first `closeDone name`. -/
def eventsAfterClose (name : String) : List Ev → List Ev
  | [] => []
  | Ev.closeDone n :: rest =>
      if n == name then rest else eventsAfterClose name rest
  | _ :: rest => eventsAfterClose name rest

def countChanged (tr : List Ev) : Nat :=
  tr.countP (fun e =>
    match e with
    | Ev.emit u => u.updateType = UpdateType.CHANGED
    | _ => false)

/-- The two long-poll responses: `catalog.Services` returns a map from
service name to tag list, `catalog.Service` returns a node list; both
come with the new index, or fail with a transient error. -/
inductive PollResult (α : Type) : Type
  | err (msg : String)
  | ok (data : α) (newIndex : Nat)
deriving DecidableEq, Repr

/-! ## One iteration of `watchService` (consul.go lines 206-249)

State: the watched record itself.  The `done`-channel check at lines
233-239 reads the record's `doneClosed` flag. -/

def watchServiceIter (service : ConsulService)
    (resp : PollResult (List CatalogNode)) :
    ConsulService × List Ev × Bool :=
  match resp with
  | PollResult.err msg =>
      -- lines 211-215: log, sleep, continue
      (service, [Ev.logError msg, Ev.sleep consulRetryInterval], false)
  | PollResult.ok nodes idx =>
      if idx = service.lastIndex then
        -- lines 217-219: watch timed out with no update
        (service, [], false)
      else
        -- lines 220-230: update lastIndex and rebuild Instances (no lock)
        let s2 := { service with lastIndex := idx,
                                 Instances := buildInstances nodes }
        -- lines 232-239: Lock, check done
        if service.doneClosed then
          (s2, [Ev.setRecLastIndex service.Name idx,
                Ev.setRecInstances service.Name,
                Ev.lock, Ev.unlock, Ev.ret], true)
        else
          -- lines 241-248: emit CHANGED under the lock, then Unlock
          (s2, [Ev.setRecLastIndex service.Name idx,
                Ev.setRecInstances service.Name,
                Ev.lock,
                Ev.emit { ServiceName := service.Name,
                          updateType := UpdateType.CHANGED,
                          ServiceInstances := s2.Instances,
                          Tag := service.tag },
                Ev.unlock], false)

/-- Run `watchService` iterations over a list of poll responses,
stopping when an iteration returns. -/
def watchServiceRun (service : ConsulService) :
    List (PollResult (List CatalogNode)) → ConsulService × List Ev × Bool
  | [] => (service, [], false)
  | r :: rs =>
      let x := watchServiceIter service r
      if x.2.2 then (x.1, x.2.1, true)
      else
        let y := watchServiceRun x.1 rs
        (y.1, x.2.1 ++ y.2.1, y.2.2)

/-! ## One iteration of `watchServices` (consul.go lines 122-199)

State: the local catalog `lastIndex` and the cache.  The `done` check
at lines 145-151 reads the global stop flag. -/

def freshService (name tag : String) : ConsulService :=
  { Name := name, Instances := ∅, lastIndex := 0, removed := false,
    running := false, doneClosed := false, tag := tag }

/-- Lines 153-188: the additions pass over the returned services. -/
def servicesAdditions (tagsToWatch : List String) :
    GoMap String ConsulService → List (String × List String) →
    GoMap String ConsulService × List Ev
  | cache, [] => (cache, [])
  | cache, (k, v) :: rest =>
      let st := scanTags tagsToWatch v
      if st.ignore then servicesAdditions tagsToWatch cache rest
      else if GoMap.contains cache k then
        servicesAdditions tagsToWatch cache rest
      else
        let cache2 := GoMap.insert cache k (freshService k st.properTag)
        let r := servicesAdditions tagsToWatch cache2 rest
        (r.1, Ev.cacheInsert k :: Ev.sendUpdate k :: r.2)

/-- Lines 190-197: the removals pass over the cache; the first
component is the resulting cache, the second the records sent on the
update channel, the third the effect trace. -/
def servicesRemovals (services : GoMap String (List String)) :
    GoMap String ConsulService → List (String × ConsulService) →
    GoMap String ConsulService × List (String × ConsulService) × List Ev
  | cache, [] => (cache, [], [])
  | cache, (name, srv) :: rest =>
      if GoMap.contains services name then
        servicesRemovals services cache rest
      else
        let r := servicesRemovals services (GoMap.erase cache name) rest
        (r.1, (name, { srv with removed := true }) :: r.2.1,
         Ev.setRecRemoved name :: Ev.sendUpdate name ::
           Ev.cacheDelete name :: r.2.2)

def watchServicesIter (tagsToWatch : List String) (lastIndex : Nat)
    (cache : GoMap String ConsulService) (doneFired : Bool)
    (resp : PollResult (GoMap String (List String))) :
    Nat × GoMap String ConsulService × List Ev × Bool :=
  match resp with
  | PollResult.err msg =>
      -- lines 132-137: log, sleep, continue
      (lastIndex, cache, [Ev.logError msg, Ev.sleep consulRetryInterval], false)
  | PollResult.ok services idx =>
      if idx = lastIndex then
        -- lines 139-141: watch timed out with no update
        (lastIndex, cache, [], false)
      else
        -- line 142: update the local index (before taking the lock)
        -- lines 144-151: Lock, check the global stop signal
        if doneFired then
          (idx, cache, [Ev.setLocalIndex idx, Ev.lock, Ev.unlock, Ev.ret], true)
        else
          let r1 := servicesAdditions tagsToWatch cache services
          let r2 := servicesRemovals services r1.1 r1.1
          (idx, r2.1,
           Ev.setLocalIndex idx :: Ev.lock ::
             (r1.2 ++ r2.2.2 ++ [Ev.unlock]),
           false)

/-! ## One dispatch-loop handling in `Run` (consul.go lines 81-105)

`Run` receives a record from the internal update channel and either
tears it down (removed) or starts its watcher (not yet running).  None
of this takes the cache lock. -/

def runHandleUpdate (srv : ConsulService) : ConsulService × List Ev :=
  if srv.removed then
    -- lines 83-93: close(srv.done), then send DELETED upstream
    ({ srv with doneClosed := true },
     [Ev.closeDone srv.Name,
      Ev.emit { ServiceName := srv.Name, updateType := UpdateType.DELETED,
                ServiceInstances := ∅, Tag := srv.tag }])
  else if !srv.running then
    -- lines 96-104: go watchService, set running, send NEW upstream
    ({ srv with running := true },
     [Ev.spawnWatcher srv.Name,
      Ev.setRecRunning srv.Name,
      Ev.emit { ServiceName := srv.Name, updateType := UpdateType.NEW,
                ServiceInstances := ∅, Tag := srv.tag }])
  else (srv, [])

/-! ## Small-step interleaving model of the whole watcher

For claims about interleavings of the goroutines, the program is
embedded as a transition system.  Threads: the catalog watch loop
(`watchServices`), the dispatch loop (`Run`) and one watcher per
spawned `watchService` call.  Shared state: the record store (records
are heap objects, addressed by a record id), the cache map, the
internal update channel, the consumer channel, the cache lock and the
global stop signal.  A scheduler directive list chooses which thread
performs its next step, and each long poll consumes the next response
from an oracle list, so every interleaving and every remote behaviour
can be explored.

Granularity: regions executed entirely under the cache lock by a
single thread (the catalog loop's reconciliation, `stop()`) are single
steps, since no other lock-taking step can interleave with them;
statements executed **without** the lock (all of `Run`'s dispatch
handling, the per-service loop's field mutations) are individual steps.
The internal update channel (capacity 16) and the consumer channel are
modelled as unbounded queues: the counterexample runs keep at most two
records in flight, and emission order equals append order. -/

inductive CatPc : Type
  | poll
  | process (services : GoMap String (List String))
  | stopped
deriving DecidableEq, Repr

inductive DispPc : Type
  | select
  | removedClose (rid : Nat)
  | removedEmit (rid : Nat)
  | newSpawn (rid : Nat)
  | newSetRunning (rid : Nat)
  | newEmit (rid : Nat)
  | stopping
  | closing
  | terminated
deriving DecidableEq, Repr

inductive WatPc : Type
  | poll
  | acquire
  | checkDone
  | emitChanged
  | unlockStep
  | returned
deriving DecidableEq, Repr

structure Watcher : Type where
  rid : Nat
  pc : WatPc
deriving DecidableEq, Repr

/-- Consumer-channel history: the NEW/CHANGED/DELETED sends (`rid` is
ghost instrumentation identifying the record object; the instance
payload of CHANGED is elided) and the channel-close marker. -/
inductive UpEv : Type
  | ev (rid : Nat) (name : String) (t : UpdateType) (tag : String)
  | closed
deriving DecidableEq, Repr

structure Sys : Type where
  recs : Nat → ConsulService
  nrecs : Nat
  cache : GoMap String Nat
  queue : List Nat
  upstream : List UpEv
  lockHeld : Bool
  stopFired : Bool
  tagsToWatch : List String
  catPc : CatPc
  catIdx : Nat
  catOracle : List (PollResult (GoMap String (List String)))
  dispPc : DispPc
  watchers : List Watcher
  instOracle : GoMap String (List (PollResult (List CatalogNode)))

def setRec (s : Sys) (rid : Nat) (r : ConsulService) : Sys :=
  { s with recs := fun j => if j = rid then r else s.recs j }

def setWatcher (s : Sys) (i : Nat) (w : Watcher) : Sys :=
  { s with watchers := s.watchers.set i w }

/-- The record store after `stop()` (consul.go lines 109-118): every
record still reachable from the cache has its done channel closed. -/
def closeCachedRecs (s : Sys) : Nat → ConsulService := fun j =>
  if (GoMap.entries s.cache).any (fun p => p.2 = j) then
    { s.recs j with doneClosed := true }
  else s.recs j

/-- Lines 153-188: the additions pass, executed under the cache lock.
Each tag-matching uncached service gets a fresh record (fresh id =
`nrecs`), is inserted into the cache and sent on the update channel. -/
def sysAdditions (s : Sys) : List (String × List String) → Sys
  | [] => s
  | (k, v) :: rest =>
      let st := scanTags s.tagsToWatch v
      if st.ignore then sysAdditions s rest
      else if GoMap.contains s.cache k then sysAdditions s rest
      else
        let rid := s.nrecs
        let s2 := { setRec s rid (freshService k st.properTag) with
                      nrecs := rid + 1,
                      cache := GoMap.insert s.cache k rid,
                      queue := s.queue ++ [rid] }
        sysAdditions s2 rest

/-- Lines 190-197: the removals pass, executed under the cache lock.
The record is marked removed, sent on the update channel, and deleted
from the cache. -/
def sysRemovals (services : GoMap String (List String)) (s : Sys) :
    List (String × Nat) → Sys
  | [] => s
  | (name, rid) :: rest =>
      if GoMap.contains services name then sysRemovals services s rest
      else
        let s2 := { setRec s rid { s.recs rid with removed := true } with
                      queue := s.queue ++ [rid],
                      cache := GoMap.erase s.cache name }
        sysRemovals services s2 rest

/-- One step of the catalog watch loop (consul.go lines 122-199). -/
def catStep (s : Sys) : Sys :=
  match s.catPc with
  | CatPc.poll =>
      match s.catOracle with
      | [] => s  -- long poll still pending
      | resp :: rest =>
          let s1 := { s with catOracle := rest }
          match resp with
          | PollResult.err _ => s1  -- lines 132-137: log, sleep, retry
          | PollResult.ok services idx =>
              if idx = s.catIdx then s1  -- lines 139-141: timed out, no change
              else { s1 with catIdx := idx, catPc := CatPc.process services }
  | CatPc.process services =>
      -- lines 144-198: the whole cr.Lock()..cr.Unlock() region, one step
      if s.lockHeld then s  -- cr.Lock() blocks
      else if s.stopFired then { s with catPc := CatPc.stopped }  -- lines 145-148
      else
        let s2 := sysAdditions s (GoMap.entries services)
        let s3 := sysRemovals services s2 (GoMap.entries s2.cache)
        { s3 with catPc := CatPc.poll }
  | CatPc.stopped => s

/-- One step of the dispatch loop in `Run` (consul.go lines 68-107) and
of its teardown (`stop`, lines 109-118, then `close(upstream)`, line
69).  `takeDone` resolves the `select` when both channels are ready.
None of the dispatch handling takes the cache lock; `stop` does. -/
def dispStep (s : Sys) (takeDone : Bool) : Sys :=
  match s.dispPc with
  | DispPc.select =>
      if s.stopFired && (takeDone || s.queue.isEmpty) then
        { s with dispPc := DispPc.stopping }  -- line 79-80: case <-done
      else
        match s.queue with
        | [] => s  -- both channels blocked
        | rid :: rest =>
            let s1 := { s with queue := rest }
            let r := s.recs rid
            if r.removed then { s1 with dispPc := DispPc.removedClose rid }
            else if !r.running then { s1 with dispPc := DispPc.newSpawn rid }
            else { s1 with dispPc := DispPc.select }
  | DispPc.removedClose rid =>
      -- line 84: close(srv.done) — without the cache lock
      { setRec s rid { s.recs rid with doneClosed := true } with
          dispPc := DispPc.removedEmit rid }
  | DispPc.removedEmit rid =>
      -- lines 87-91: send DELETED upstream
      let r := s.recs rid
      { s with upstream := s.upstream ++
                 [UpEv.ev rid r.Name UpdateType.DELETED r.tag],
               dispPc := DispPc.select }
  | DispPc.newSpawn rid =>
      -- line 97: go cr.watchService(srv, upstream)
      { s with watchers := s.watchers ++ [⟨rid, WatPc.poll⟩],
               dispPc := DispPc.newSetRunning rid }
  | DispPc.newSetRunning rid =>
      -- line 98: srv.running = true — without the cache lock
      { setRec s rid { s.recs rid with running := true } with
          dispPc := DispPc.newEmit rid }
  | DispPc.newEmit rid =>
      -- lines 99-103: send NEW upstream
      let r := s.recs rid
      { s with upstream := s.upstream ++
                 [UpEv.ev rid r.Name UpdateType.NEW r.tag],
               dispPc := DispPc.select }
  | DispPc.stopping =>
      -- deferred cr.stop(): close every still-cached record's done
      -- channel under the cache lock (lines 109-118), one atomic step
      if s.lockHeld then s
      else
        { s with recs := closeCachedRecs s,
                 dispPc := DispPc.closing }
  | DispPc.closing =>
      -- deferred close(upstream) (line 69)
      { s with upstream := s.upstream ++ [UpEv.closed],
               dispPc := DispPc.terminated }
  | DispPc.terminated => s

/-- One step of a `watchService` goroutine (consul.go lines 204-250). -/
def watStep (s : Sys) (i : Nat) : Sys :=
  match s.watchers.get? i with
  | none => s
  | some w =>
      let r := s.recs w.rid
      match w.pc with
      | WatPc.poll =>
          match GoMap.lookup s.instOracle r.Name with
          | none => s  -- long poll still pending
          | some [] => s
          | some (resp :: rest) =>
              let s1 := { s with
                instOracle := GoMap.insert s.instOracle r.Name rest }
              match resp with
              | PollResult.err _ => s1  -- lines 211-215: log, sleep, retry
              | PollResult.ok nodes idx =>
                  if idx = r.lastIndex then s1  -- lines 217-219
                  else
                    -- lines 220-230: mutate the record without the lock
                    let s2 := setRec s1 w.rid
                      { r with lastIndex := idx,
                               Instances := buildInstances nodes }
                    setWatcher s2 i { w with pc := WatPc.acquire }
      | WatPc.acquire =>
          -- line 232: cr.Lock()
          if s.lockHeld then s
          else setWatcher { s with lockHeld := true } i
                 { w with pc := WatPc.checkDone }
      | WatPc.checkDone =>
          -- lines 233-239: select on service.done under the lock
          if r.doneClosed then
            setWatcher { s with lockHeld := false } i
              { w with pc := WatPc.returned }
          else setWatcher s i { w with pc := WatPc.emitChanged }
      | WatPc.emitChanged =>
          -- lines 242-247: send CHANGED upstream, still holding the lock
          setWatcher
            { s with upstream := s.upstream ++
                [UpEv.ev w.rid r.Name UpdateType.CHANGED r.tag] } i
            { w with pc := WatPc.unlockStep }
      | WatPc.unlockStep =>
          -- line 248: cr.Unlock()
          setWatcher { s with lockHeld := false } i { w with pc := WatPc.poll }
      | WatPc.returned => s

inductive Dir : Type
  | cat
  | disp (takeDone : Bool)
  | watch (i : Nat)
  | fireStop
deriving DecidableEq, Repr

def sysStep (s : Sys) : Dir → Sys
  | Dir.cat => catStep s
  | Dir.disp b => dispStep s b
  | Dir.watch i => watStep s i
  | Dir.fireStop => { s with stopFired := true }  -- the caller closes done

def sysRun (s : Sys) (ds : List Dir) : Sys := ds.foldl sysStep s

def initSys (tags : List String)
    (catO : List (PollResult (GoMap String (List String))))
    (instO : GoMap String (List (PollResult (List CatalogNode)))) : Sys :=
  { recs := fun _ => freshService "" "", nrecs := 0, cache := ∅,
    queue := [], upstream := [], lockHeld := false, stopFired := false,
    tagsToWatch := tags, catPc := CatPc.poll, catIdx := 0,
    catOracle := catO, dispPc := DispPc.select, watchers := [],
    instOracle := instO }

/-! ### Trace observations -/

def UpEv.isNewFor (rid : Nat) : UpEv → Bool
  | UpEv.ev r _ UpdateType.NEW _ => r == rid
  | _ => false

def newCount (tr : List UpEv) (rid : Nat) : Nat :=
  tr.countP (UpEv.isNewFor rid)

def wcount (s : Sys) (rid : Nat) : Nat :=
  s.watchers.countP (fun w => w.rid == rid)

def closedCount (tr : List UpEv) : Nat :=
  tr.countP (fun e => match e with | UpEv.closed => true | _ => false)

def UpEv.isFor (name : String) (t : UpdateType) : UpEv → Bool
  | UpEv.ev _ n t' _ => n == name && t' == t
  | UpEv.closed => false

def UpEv.isSend : UpEv → Bool
  | UpEv.ev _ _ _ _ => true
  | UpEv.closed => false

def UpEv.isClose : UpEv → Bool
  | UpEv.closed => true
  | UpEv.ev _ _ _ _ => false

/-- The claimed per-service ordering of C4 over a consumer trace:
every CHANGED for `name` is preceded by a NEW for `name`. -/
def newBeforeChanged (tr : List UpEv) (name : String) : Prop :=
  ∀ j, j < tr.length →
    UpEv.isFor name UpdateType.CHANGED (tr.getD j UpEv.closed) = true →
    ∃ i, i < j ∧ UpEv.isFor name UpdateType.NEW (tr.getD i UpEv.closed) = true

instance (tr : List UpEv) (name : String) :
    Decidable (newBeforeChanged tr name) := by
  unfold newBeforeChanged
  infer_instance

/-- The claimed shutdown property of C7 over a consumer trace: no send
occurs after the channel close begins. -/
def noEventAfterClose (tr : List UpEv) : Prop :=
  ∀ j, j < tr.length → ∀ i, i < j →
    UpEv.isClose (tr.getD i UpEv.closed) = true →
    UpEv.isSend (tr.getD j UpEv.closed) = false

instance (tr : List UpEv) : Decidable (noEventAfterClose tr) := by
  unfold noEventAfterClose
  infer_instance

/-! ## Concrete scenarios used by the counterexamples -/

def demoNode : CatalogNode :=
  { Node := "node1", Address := "10.0.0.5", ServiceAddress := "10.0.0.5",
    ServicePort := 8080, ServiceTags := ["prod"] }

def demoNode2 : CatalogNode :=
  { Node := "node2", Address := "10.0.0.6", ServiceAddress := "10.0.0.5",
    ServicePort := 8080, ServiceTags := ["prod"] }

/-- Catalog answers once: `web` carries the watched tag `prod`. -/
def c4catO : List (PollResult (GoMap String (List String))) :=
  [PollResult.ok [("web", ["prod"])] 1]

/-- The instance endpoint for `web` answers once with one node. -/
def demoInstO : GoMap String (List (PollResult (List CatalogNode))) :=
  [("web", [PollResult.ok [demoNode] 5])]

/-- Schedule: the catalog loop discovers `web`; the dispatch loop pops
it and spawns its watcher (line 97); before the dispatch loop reaches
the NEW send (line 99), the fresh watcher completes a full poll-and-
emit round; then the dispatch loop finishes, sending NEW. -/
def c4dirs : List Dir :=
  [Dir.cat, Dir.cat, Dir.disp false, Dir.disp false,
   Dir.watch 0, Dir.watch 0, Dir.watch 0, Dir.watch 0,
   Dir.disp false, Dir.disp false]

/-- Catalog answers twice: `web` appears, then disappears. -/
def c7catO : List (PollResult (GoMap String (List String))) :=
  [PollResult.ok [("web", ["prod"])] 1,
   PollResult.ok ([] : GoMap String (List String)) 2]

/-- Schedule: `web` is discovered, dispatched (NEW) and its watcher
spawned; the catalog loop then sees `web` gone, marks it removed,
enqueues it and deletes it from the cache; the caller fires the global
stop; the dispatch loop's select takes the done branch (legal: both
channels are ready), so it runs `stop()` — which closes nothing, the
cache being already empty — and closes the consumer channel; the
watcher, whose done channel was never closed, then completes a poll
and emits CHANGED after the close. -/
def c7dirs : List Dir :=
  [Dir.cat, Dir.cat, Dir.disp false, Dir.disp false, Dir.disp false,
   Dir.disp false, Dir.cat, Dir.cat, Dir.fireStop, Dir.disp true,
   Dir.disp true, Dir.disp true, Dir.watch 0, Dir.watch 0, Dir.watch 0,
   Dir.watch 0]

/-- A record as created by the catalog loop and already marked removed
(the shape the dispatch loop receives on the removal path). -/
def demoRemovedRec : ConsulService :=
  { freshService "web" "prod" with removed := true }

/-- The spec-side description of the last matching tag, for the
amended C2. -/
def lastMatchingTag (tagsToWatch v : List String) : Option String :=
  (v.filter (fun t => tagsToWatch.contains t)).getLast?

/-! ## Helper lemmas -/

theorem GoMap.lookup_insert {α β : Type} [BEq α] [LawfulBEq α]
    (m : GoMap α β) (k k' : α) (v : β) :
    GoMap.lookup (GoMap.insert m k v) k' =
      if k == k' then some v else GoMap.lookup m k' := by
  induction m with
  | nil => simp [GoMap.insert, GoMap.lookup]
  | cons p tl ih =>
      obtain ⟨a, b⟩ := p
      by_cases h : a = k
      · subst h
        simp only [GoMap.insert, beq_self_eq_true, if_true]
        by_cases h2 : a = k' <;> simp [GoMap.lookup, h2]
      · have hb : (a == k) = false := by simp [h]
        simp only [GoMap.insert, hb, Bool.false_eq_true, if_false,
          GoMap.lookup, ih]
        by_cases h2 : a = k'
        · subst h2
          have hk : (k == a) = false := by
            simp only [beq_eq_false_iff_ne, ne_eq]
            exact fun e => h e.symm
          simp [hk]
        · simp [h2]

theorem foldl_pickLast {α β : Type} (p : α → Bool) (g : α → β)
    (l : List α) (acc : β) :
    l.foldl (fun a n => if p n then g n else a) acc =
      ((l.filter p).getLast?).elim acc g := by
  induction l using List.reverseRecOn with
  | nil => simp
  | append_singleton xs x ih =>
      rw [List.foldl_append, List.filter_append]
      simp only [List.foldl_cons, List.foldl_nil]
      by_cases h : p x
      · simp [h, List.getLast?_concat]
      · simp [h, ih]

theorem lookup_foldl_insert (ns : List CatalogNode) :
    ∀ (m : GoMap String ServiceInstance) (k : String),
    GoMap.lookup
        (ns.foldl
          (fun m n => GoMap.insert m (instanceKey n) (nodeToInstance n)) m)
        k =
      ns.foldl
        (fun a n =>
          if instanceKey n == k then some (nodeToInstance n) else a)
        (GoMap.lookup m k) := by
  induction ns with
  | nil => intro m k; rfl
  | cons n ns ih =>
      intro m k
      simp only [List.foldl_cons]
      rw [ih, GoMap.lookup_insert]

theorem buildInstances_lookup (ns : List CatalogNode) (k : String) :
    GoMap.lookup (buildInstances ns) k =
      ((ns.filter (fun n => instanceKey n == k)).getLast?).map
        nodeToInstance := by
  have h0 : GoMap.lookup (∅ : GoMap String ServiceInstance) k = none := rfl
  rw [buildInstances, lookup_foldl_insert, h0, foldl_pickLast]
  cases (ns.filter (fun n => instanceKey n == k)).getLast? <;> rfl

theorem scanOneTag_eq (w : List String) :
    ∀ (st : TagScanState) (t : String),
    scanOneTag w st t =
      if w.contains t then { ignore := false, properTag := t } else st := by
  induction w with
  | nil => intro st t; rfl
  | cons a w ih =>
      intro st t
      simp only [scanOneTag, List.foldl_cons] at *
      by_cases h : t = a
      · have hb : (t == a) = true := by simp [h]
        rw [hb]
        simp only [if_true]
        rw [ih]
        have hc : ((a :: w).contains t) = true := by
          simp [List.contains_cons, h]
        rw [hc]
        simp only [if_true]
        split <;> rfl
      · have hb : (t == a) = false := by simp [h]
        rw [hb]
        simp only [Bool.false_eq_true, if_false]
        rw [ih]
        have hc : ((a :: w).contains t) = w.contains t := by
          rw [List.contains_cons, hb, Bool.false_or]
        rw [hc]

theorem scanTags_eq (w v : List String) :
    scanTags w v =
      (lastMatchingTag w v).elim
        { ignore := true, properTag := "" }
        (fun t => { ignore := false, properTag := t }) := by
  unfold scanTags lastMatchingTag
  rw [List.foldl_ext (g :=
    fun st t =>
      if w.contains t then { ignore := false, properTag := t } else st)]
  · exact foldl_pickLast (fun t => w.contains t)
      (fun t => ({ ignore := false, properTag := t } : TagScanState)) v
      ({ ignore := true, properTag := "" } : TagScanState)
  · intro st a _
    exact scanOneTag_eq w st a

theorem splitByLock_lockfree_append (rest : List Ev) (d : Nat)
    (hd : 0 < d) :
    ∀ xs : List Ev, (∀ e ∈ xs, Ev.isLockOp e = false) →
    splitByLock (xs ++ rest) d =
      (xs ++ (splitByLock rest d).1, (splitByLock rest d).2) := by
  intro xs
  induction xs with
  | nil => intro _; simp
  | cons e xs ih =>
      intro h
      have he := h e (List.mem_cons_self e xs)
      have hxs : ∀ x ∈ xs, Ev.isLockOp x = false :=
        fun x hx => h x (List.mem_cons_of_mem e hx)
      have hrec := ih hxs
      cases e
      case lock => simp [Ev.isLockOp] at he
      case unlock => simp [Ev.isLockOp] at he
      all_goals
        rw [List.cons_append]
        simp only [splitByLock, hrec]
        rw [if_pos hd]
        simp

theorem servicesAdditions_trace_lockfree (w : List String) :
    ∀ (l : List (String × List String)) (cache : GoMap String ConsulService),
    ∀ e ∈ (servicesAdditions w cache l).2, Ev.isLockOp e = false := by
  intro l
  induction l with
  | nil => intro cache e he; simp [servicesAdditions] at he
  | cons p rest ih =>
      obtain ⟨k, v⟩ := p
      intro cache e he
      simp only [servicesAdditions] at he
      by_cases h1 : (scanTags w v).ignore
      · rw [if_pos h1] at he; exact ih cache e he
      · rw [if_neg h1] at he
        by_cases h2 : GoMap.contains cache k
        · rw [if_pos h2] at he; exact ih cache e he
        · rw [if_neg h2] at he
          simp only [List.mem_cons] at he
          rcases he with h | h | h
          · subst h; rfl
          · subst h; rfl
          · exact ih _ e h

theorem servicesRemovals_trace_lockfree (svc : GoMap String (List String)) :
    ∀ (l : List (String × ConsulService)) (cache : GoMap String ConsulService),
    ∀ e ∈ (servicesRemovals svc cache l).2.2, Ev.isLockOp e = false := by
  intro l
  induction l with
  | nil => intro cache e he; simp [servicesRemovals] at he
  | cons p rest ih =>
      obtain ⟨name, srv⟩ := p
      intro cache e he
      simp only [servicesRemovals] at he
      by_cases h1 : GoMap.contains svc name
      · rw [if_pos h1] at he; exact ih cache e he
      · rw [if_neg h1] at he
        simp only [List.mem_cons] at he
        rcases he with h | h | h | h
        · subst h; rfl
        · subst h; rfl
        · subst h; rfl
        · exact ih _ e h

theorem GoMap.lookup_empty {α β : Type} [BEq α] (k : α) :
    GoMap.lookup (∅ : GoMap α β) k = none := rfl

theorem GoMap.contains_empty {α β : Type} [BEq α] (k : α) :
    GoMap.contains (∅ : GoMap α β) k = false := rfl

/-! ## Claim theorems -/

/-- C9: construction fails with the no-address error if and only if the
configured address list is empty, before any watching starts; with a
non-empty list only the first address is used — the result does not
depend on the tail of the address list. -/
theorem claim_C9_construction :
    (∀ (newClient : String → Except String ConsulClient) (config : Config),
       NewRegistry newClient config =
           Except.error RegistryError.ErrNoAddress ↔
         config.Addresses = []) ∧
    (∀ (newClient : String → Except String ConsulClient)
       (a : String) (t1 t2 tags : List String),
       NewRegistry newClient { Addresses := a :: t1, TagsToWatch := tags } =
         NewRegistry newClient
           { Addresses := a :: t2, TagsToWatch := tags }) := by
  refine ⟨?_, ?_⟩
  · intro nc config
    obtain ⟨addrs, tags⟩ := config
    cases addrs with
    | nil => simp [NewRegistry]
    | cons a t =>
        unfold NewRegistry
        have h1 : ¬ ((a :: t).length < 1) := by simp
        rw [if_neg h1]
        simp only [List.cons_ne_nil, iff_false]
        intro h
        cases hnc : nc ((a :: t).headD "") with
        | error m => rw [hnc] at h; exact absurd h (by simp)
        | ok c => rw [hnc] at h; exact absurd h (by simp)
  · intro nc a t1 t2 tags
    unfold NewRegistry
    have h1 : ¬ ((a :: t1).length < 1) := by simp
    have h2 : ¬ ((a :: t2).length < 1) := by simp
    rw [if_neg h1, if_neg h2]
    rfl

/-- C10: the per-service loop's rebuilt instance map is keyed by the
string `serviceAddress:servicePort`; a later node with the same key
overwrites an earlier one (so the map can be smaller than the node
list), and the stored `Port` is the decimal rendering of the integer
service port. -/
theorem claim_C10_instance_map :
    (∀ (ns : List CatalogNode) (k : String),
       GoMap.lookup (buildInstances ns) k =
         ((ns.filter (fun n => instanceKey n == k)).getLast?).map
           nodeToInstance) ∧
    (∀ n : CatalogNode,
       instanceKey n = n.ServiceAddress ++ ":" ++ toString n.ServicePort ∧
       (nodeToInstance n).Port = toString n.ServicePort) ∧
    ([demoNode, demoNode2].length = 2 ∧
     GoMap.size (buildInstances [demoNode, demoNode2]) = 1 ∧
     GoMap.lookup (buildInstances [demoNode, demoNode2]) "10.0.0.5:8080" =
       some (nodeToInstance demoNode2)) := by
  refine ⟨buildInstances_lookup, fun n => ⟨rfl, rfl⟩, rfl, rfl, rfl⟩

/-- C2 counterexample: a service with tags `["a", "b"]` under the
allow-list `["a", "b"]` is recorded with tag `"b"` — the last matching
tag, because the scan loop has no break — while the claim (first match
wins) requires `"a"`. -/
theorem claim_C2_first_tag_counterexample :
    specFirstMatchingTag ["a", "b"] ["a", "b"] = some "a" ∧
    (scanTags ["a", "b"] ["a", "b"]).properTag = "b" ∧
    GoMap.lookup
        ((watchServicesIter ["a", "b"] 0 ∅ false
            (PollResult.ok [("web", ["a", "b"])] 1)).2.1) "web" =
      some (freshService "web" "b") ∧
    ("b" : String) ≠ "a" := by
  refine ⟨rfl, rfl, rfl, by decide⟩

/-- C2 amended: when the catalog loop creates a record for a service
whose tag set intersects the allow-list, the record's tag is the LAST
matching tag in the service's tag list (the scan continues after a
match, so later matches overwrite earlier ones). -/
theorem claim_C2_amended_last_tag (w v : List String) (name : String) :
    (scanTags w v).properTag = (lastMatchingTag w v).getD "" ∧
    ((scanTags w v).ignore = true ↔ lastMatchingTag w v = none) ∧
    GoMap.lookup
        ((watchServicesIter w 0 ∅ false (PollResult.ok [(name, v)] 1)).2.1)
        name =
      (lastMatchingTag w v).map (fun t => freshService name t) := by
  cases h : lastMatchingTag w v with
  | none =>
      refine ⟨by rw [scanTags_eq, h]; rfl, by rw [scanTags_eq, h]; simp, ?_⟩
      simp only [watchServicesIter, servicesAdditions, scanTags_eq, h,
        Option.elim, Option.map]
      norm_num
      simp [servicesRemovals, GoMap.lookup_empty]
  | some t =>
      refine ⟨by rw [scanTags_eq, h]; rfl, by rw [scanTags_eq, h]; simp, ?_⟩
      simp only [watchServicesIter, servicesAdditions, scanTags_eq, h,
        Option.elim, Option.map]
      norm_num
      simp [servicesRemovals, GoMap.contains_empty, GoMap.contains,
        GoMap.lookup, GoMap.insert, GoMap.entries]

/-- C6: a long-poll response carrying the loop's current index produces
no events, no mutation and leaves the state unchanged, in both loops;
two consecutive instance responses with the same index yield at most
one CHANGED in total. -/
theorem claim_C6_unchanged_index_noop :
    (∀ (s : ConsulService) (nodes : List CatalogNode),
       watchServiceIter s (PollResult.ok nodes s.lastIndex) = (s, [], false)) ∧
    (∀ (w : List String) (li : Nat) (cache : GoMap String ConsulService)
       (d : Bool) (svcs : GoMap String (List String)),
       watchServicesIter w li cache d (PollResult.ok svcs li) =
         (li, cache, [], false)) ∧
    (∀ (s : ConsulService) (nodes nodes2 : List CatalogNode) (idx : Nat),
       countChanged
           ((watchServiceIter s (PollResult.ok nodes idx)).2.1 ++
             (watchServiceIter
                 (watchServiceIter s (PollResult.ok nodes idx)).1
                 (PollResult.ok nodes2 idx)).2.1) ≤ 1) := by
  refine ⟨?_, ?_, ?_⟩
  · intro s nodes; simp [watchServiceIter]
  · intro w li cache d svcs; simp [watchServicesIter]
  · intro s nodes nodes2 idx
    by_cases h : idx = s.lastIndex
    · subst h
      simp [watchServiceIter, countChanged]
    · simp only [watchServiceIter, if_neg h]
      cases hd : s.doneClosed <;>
        simp [hd, watchServiceIter, countChanged, List.countP_cons]

/-- C8: a transient long-poll error makes either loop log the error,
sleep the fixed retry interval and retry with its index and state
unchanged, emitting nothing; any number of consecutive errors is
retried with the same fixed interval and leaves the loop running. -/
theorem claim_C8_transient_error_retry :
    (∀ (s : ConsulService) (msg : String),
       watchServiceIter s (PollResult.err msg) =
         (s, [Ev.logError msg, Ev.sleep consulRetryInterval], false)) ∧
    (∀ (w : List String) (li : Nat) (cache : GoMap String ConsulService)
       (d : Bool) (msg : String),
       watchServicesIter w li cache d (PollResult.err msg) =
         (li, cache, [Ev.logError msg, Ev.sleep consulRetryInterval],
          false)) ∧
    (∀ (s : ConsulService) (msgs : List String),
       watchServiceRun s (msgs.map PollResult.err) =
         (s,
          msgs.foldr
            (fun m acc =>
              Ev.logError m :: Ev.sleep consulRetryInterval :: acc)
            [],
          false)) := by
  refine ⟨fun s msg => rfl, fun w li cache d msg => rfl, ?_⟩
  intro s msgs
  induction msgs with
  | nil => rfl
  | cons m ms ih =>
      simp only [List.map_cons, watchServiceRun, watchServiceIter,
        List.foldr_cons]
      rw [ih]
      simp

/-- C3 counterexample: in one per-service iteration with fresh data,
the mutations of `record.lastIndex` and `record.Instances` (lines
220-230) appear among the events performed WITHOUT the cache lock —
the lock is only acquired afterwards (line 232) — refuting "the
per-service watch loop updates record.instances and record.lastIndex
under the cache lock". -/
theorem claim_C3_mutation_lock_counterexample :
    (unheldEvents
        (watchServiceIter (freshService "web" "prod")
            (PollResult.ok [demoNode] 5)).2.1).filter Ev.isRecMutation =
      [Ev.setRecLastIndex "web" 5, Ev.setRecInstances "web"] ∧
    ([Ev.setRecLastIndex "web" 5, Ev.setRecInstances "web"] :
        List Ev) ≠ [] := by
  refine ⟨rfl, by decide⟩

/-- C3 amended: the catalog loop's cache-map mutations and removed-flag
mutation happen only under the cache lock, but the per-service loop
updates `record.lastIndex` and `record.Instances` WITHOUT the lock
(only the subsequent done-check and emit are lock-guarded), and the
dispatch loop mutates `running` without ever taking the lock. -/
theorem claim_C3_amended_lock_discipline :
    (∀ (w : List String) (li : Nat) (cache : GoMap String ConsulService)
       (d : Bool) (resp : PollResult (GoMap String (List String))),
       (unheldEvents
           (watchServicesIter w li cache d resp).2.2.1).filter
           Ev.isRecMutation = []) ∧
    (∀ (s : ConsulService) (resp : PollResult (List CatalogNode)),
       (heldEvents (watchServiceIter s resp).2.1).filter
           Ev.isRecMutation = []) ∧
    (∀ srv : ConsulService,
       (runHandleUpdate srv).2.filter Ev.isLockOp = []) := by
  refine ⟨?_, ?_, ?_⟩
  · intro w li cache d resp
    cases resp with
    | err msg => rfl
    | ok svcs idx =>
        by_cases h : idx = li
        · simp [watchServicesIter, h, unheldEvents, splitByLock]
        · simp only [watchServicesIter, if_neg h]
          cases hd : d
          · simp only [Bool.false_eq_true, if_false]
            have hfree : ∀ e ∈ (servicesAdditions w cache svcs).2 ++
                (servicesRemovals svcs (servicesAdditions w cache svcs).1
                  (servicesAdditions w cache svcs).1).2.2,
                Ev.isLockOp e = false := by
              intro e he
              rcases List.mem_append.mp he with h1 | h2
              · exact servicesAdditions_trace_lockfree w svcs cache e h1
              · exact servicesRemovals_trace_lockfree svcs _ _ e h2
            have hsplit := splitByLock_lockfree_append [Ev.unlock] 1
              (by omega) _ hfree
            unfold unheldEvents
            simp only [splitByLock]
            rw [hsplit]
            simp [splitByLock, Ev.isRecMutation]
          · simp [unheldEvents, splitByLock, Ev.isRecMutation]
  · intro s resp
    cases resp with
    | err msg => rfl
    | ok nodes idx =>
        by_cases h : idx = s.lastIndex
        · simp [watchServiceIter, h, heldEvents, splitByLock]
        · simp only [watchServiceIter, if_neg h]
          cases hd : s.doneClosed <;>
            simp [heldEvents, splitByLock, Ev.isRecMutation]
  · intro srv
    unfold runHandleUpdate
    by_cases h1 : srv.removed
    · simp [h1, Ev.isLockOp]
    · by_cases h2 : srv.running <;> simp [h1, h2, Ev.isLockOp]

/-- C1 counterexample: on the removal path the dispatch loop first
closes the record's done channel (line 84) and THEN sends DELETED
upstream (lines 87-91) — an event emitted for the record after its
cancellation signal has been triggered, and without holding the cache
lock — refuting "no event is ever emitted after cancellation". -/
theorem claim_C1_no_emit_after_cancel_counterexample :
    (runHandleUpdate demoRemovedRec).2 =
      [Ev.closeDone "web",
       Ev.emit { ServiceName := "web", updateType := UpdateType.DELETED,
                 ServiceInstances := ∅, Tag := "prod" }] ∧
    (eventsAfterClose "web" (runHandleUpdate demoRemovedRec).2).filter
        Ev.isEmit ≠ [] := by
  refine ⟨rfl, by decide⟩

/-- C1 amended: the per-service loop emits nothing when the record's
done channel was already closed at its lock-held check, and its CHANGED
emit only ever happens under the lock; the DELETED event, however, is
emitted by the dispatch loop immediately AFTER it triggers the
cancellation, without the lock. -/
theorem claim_C1_amended_emit_discipline :
    (∀ (s : ConsulService) (resp : PollResult (List CatalogNode)),
       s.doneClosed = true →
       ((watchServiceIter s resp).2.1).filter Ev.isEmit = []) ∧
    (∀ (s : ConsulService) (resp : PollResult (List CatalogNode)),
       (unheldEvents (watchServiceIter s resp).2.1).filter Ev.isEmit =
         []) ∧
    (∀ s : ConsulService, s.removed = true →
       (runHandleUpdate s).2 =
         [Ev.closeDone s.Name,
          Ev.emit { ServiceName := s.Name,
                    updateType := UpdateType.DELETED,
                    ServiceInstances := ∅, Tag := s.tag }]) := by
  refine ⟨?_, ?_, ?_⟩
  · intro s resp hdone
    cases resp with
    | err msg => rfl
    | ok nodes idx =>
        by_cases h : idx = s.lastIndex
        · simp [watchServiceIter, h]
        · simp [watchServiceIter, if_neg h, hdone, Ev.isEmit]
  · intro s resp
    cases resp with
    | err msg => rfl
    | ok nodes idx =>
        by_cases h : idx = s.lastIndex
        · simp [watchServiceIter, h, unheldEvents, splitByLock]
        · simp only [watchServiceIter, if_neg h]
          cases hd : s.doneClosed <;>
            simp [unheldEvents, splitByLock, Ev.isEmit]
  · intro s hrem
    simp [runHandleUpdate, hrem]

/-- Witness for the amended C1 at concrete inputs: a record with its
done channel closed emits nothing on a fresh-data poll, and the
dispatch loop's removal handling closes done and then emits DELETED. -/
theorem claim_C1_amended_emit_discipline_witness :
    ((watchServiceIter { freshService "web" "prod" with doneClosed := true }
        (PollResult.ok [demoNode] 5)).2.1).filter Ev.isEmit = [] ∧
    (runHandleUpdate demoRemovedRec).2 =
      [Ev.closeDone demoRemovedRec.Name,
       Ev.emit { ServiceName := demoRemovedRec.Name,
                 updateType := UpdateType.DELETED,
                 ServiceInstances := ∅, Tag := demoRemovedRec.tag }] :=
  ⟨claim_C1_amended_emit_discipline.1 _ _ rfl,
   claim_C1_amended_emit_discipline.2.2 demoRemovedRec rfl⟩

/-- C5 counterexample: the dispatch loop checks and sets `running`
(lines 96-98) with no lock operation anywhere in its handling — the
set of events it performs while holding the cache lock is empty —
refuting "checked and set atomically with the cache lock held". -/
theorem claim_C5_lock_counterexample :
    Ev.setRecRunning "web" ∈
      (runHandleUpdate (freshService "web" "prod")).2 ∧
    heldEvents (runHandleUpdate (freshService "web" "prod")).2 = [] := by
  refine ⟨by decide, rfl⟩

/-- C4 counterexample: one reachable interleaving delivers CHANGED for
`web` before its NEW — the watcher is spawned (line 97) before the NEW
send (line 99) with no synchronisation between them — refuting "exactly
one NEW event is emitted before any CHANGED event for that service". -/
theorem claim_C4_ordering_counterexample :
    (sysRun (initSys ["prod"] c4catO demoInstO) c4dirs).upstream =
      [UpEv.ev 0 "web" UpdateType.CHANGED "prod",
       UpEv.ev 0 "web" UpdateType.NEW "prod"] ∧
    ¬ newBeforeChanged
        (sysRun (initSys ["prod"] c4catO demoInstO) c4dirs).upstream
        "web" := by
  have h : (sysRun (initSys ["prod"] c4catO demoInstO) c4dirs).upstream =
      [UpEv.ev 0 "web" UpdateType.CHANGED "prod",
       UpEv.ev 0 "web" UpdateType.NEW "prod"] := rfl
  refine ⟨h, ?_⟩
  rw [h]
  decide

/-- C7 counterexample: a service removed from the catalog can still be
queued (unprocessed) when the stop signal wins the dispatch select, so
`stop` never closes its done channel; its watch loop survives the
channel close — the final state still holds a live watcher — and emits
CHANGED after the close marker, refuting "no Per-Service Watch Loop is
left running and no event is emitted after channel close begins". -/
theorem claim_C7_shutdown_counterexample :
    (sysRun (initSys ["prod"] c7catO demoInstO) c7dirs).upstream =
      [UpEv.ev 0 "web" UpdateType.NEW "prod", UpEv.closed,
       UpEv.ev 0 "web" UpdateType.CHANGED "prod"] ∧
    (sysRun (initSys ["prod"] c7catO demoInstO) c7dirs).watchers =
      [{ rid := 0, pc := WatPc.unlockStep }] ∧
    ¬ noEventAfterClose
        (sysRun (initSys ["prod"] c7catO demoInstO) c7dirs).upstream := by
  have h : (sysRun (initSys ["prod"] c7catO demoInstO) c7dirs).upstream =
      [UpEv.ev 0 "web" UpdateType.NEW "prod", UpEv.closed,
       UpEv.ev 0 "web" UpdateType.CHANGED "prod"] := rfl
  refine ⟨h, rfl, ?_⟩
  rw [h]
  decide

/-! ## Invariants of the interleaving model -/

theorem countP_append_one {α : Type} (l : List α) (p : α → Bool) (x : α) :
    (l ++ [x]).countP p = l.countP p + (if p x then 1 else 0) := by
  simp [List.countP_append, List.countP_cons]

theorem countP_set_eq {α : Type} (l : List α) :
    ∀ (i : Nat) (w w0 : α), l.get? i = some w0 → ∀ p : α → Bool,
    p w = p w0 → (l.set i w).countP p = l.countP p := by
  induction l with
  | nil => intro i w w0 h; simp at h
  | cons a tl ih =>
      intro i w w0 hget p hp
      cases i with
      | zero =>
          simp only [List.get?] at hget
          injection hget with hget
          subst hget
          simp [List.countP_cons, hp]
      | succ n =>
          simp only [List.get?] at hget
          simp [List.countP_cons, ih n w w0 hget p hp]

theorem entries_insert_pred {α β : Type} [BEq α] (P : α × β → Prop)
    (k : α) (v : β) :
    ∀ m : GoMap α β, (∀ q ∈ GoMap.entries m, P q) → (∀ a : α, P (a, v)) →
    ∀ q ∈ GoMap.entries (GoMap.insert m k v), P q := by
  intro m
  induction m with
  | nil =>
      intro _ hv q hq
      simp only [GoMap.insert, GoMap.entries, List.mem_singleton] at hq
      subst hq; exact hv k
  | cons p tl ih =>
      intro hm hv q hq
      obtain ⟨a, b⟩ := p
      simp only [GoMap.insert, GoMap.entries] at hq
      by_cases h : a == k
      · rw [if_pos h] at hq
        rcases List.mem_cons.mp hq with h1 | h1
        · subst h1; exact hv a
        · exact hm q (List.mem_cons_of_mem _ h1)
      · rw [if_neg h] at hq
        rcases List.mem_cons.mp hq with h1 | h1
        · subst h1; exact hm (a, b) (List.mem_cons_self _ _)
        · exact ih (fun q hq => hm q (List.mem_cons_of_mem _ hq)) hv q h1

theorem entries_erase_pred {α β : Type} [BEq α] (P : α × β → Prop) (k : α) :
    ∀ m : GoMap α β, (∀ q ∈ GoMap.entries m, P q) →
    ∀ q ∈ GoMap.entries (GoMap.erase m k), P q := by
  intro m
  induction m with
  | nil => intro _ q hq; simp [GoMap.erase, GoMap.entries] at hq
  | cons p tl ih =>
      intro hm q hq
      obtain ⟨a, b⟩ := p
      simp only [GoMap.erase, GoMap.entries] at hq
      by_cases h : a == k
      · rw [if_pos h] at hq
        exact hm q (List.mem_cons_of_mem _ hq)
      · rw [if_neg h] at hq
        rcases List.mem_cons.mp hq with h1 | h1
        · subst h1; exact hm (a, b) (List.mem_cons_self _ _)
        · exact ih (fun q hq => hm q (List.mem_cons_of_mem _ hq)) q h1

/-- The inductive invariant of the interleaving model: NEW is emitted
at most once per record and only after `running` is set; at most one
watcher is ever spawned per record; the consumer channel is closed at
most once, only by the terminating dispatch loop, and only after every
record still cached at shutdown had its done channel closed. -/
structure SysInv (s : Sys) : Prop where
  newLe : ∀ rid, newCount s.upstream rid ≤ 1
  wLe : ∀ rid, wcount s rid ≤ 1
  runNew : ∀ rid, (s.recs rid).running = false → newCount s.upstream rid = 0
  runW : ∀ rid, (s.recs rid).running = false →
    wcount s rid = 0 ∨ s.dispPc = DispPc.newSetRunning rid
  stSpawn : ∀ rid, s.dispPc = DispPc.newSpawn rid →
    (s.recs rid).running = false ∧ wcount s rid = 0 ∧
      newCount s.upstream rid = 0 ∧ rid < s.nrecs
  stSet : ∀ rid, s.dispPc = DispPc.newSetRunning rid →
    (s.recs rid).running = false ∧ wcount s rid = 1 ∧
      newCount s.upstream rid = 0 ∧ rid < s.nrecs
  stEmit : ∀ rid, s.dispPc = DispPc.newEmit rid →
    (s.recs rid).running = true ∧ wcount s rid = 1 ∧
      newCount s.upstream rid = 0 ∧ rid < s.nrecs
  stRem : ∀ rid, s.dispPc = DispPc.removedClose rid ∨
      s.dispPc = DispPc.removedEmit rid → rid < s.nrecs
  freshR : ∀ j, s.nrecs ≤ j → s.recs j = freshService "" ""
  wB : ∀ w ∈ s.watchers, w.rid < s.nrecs
  qB : ∀ rid ∈ s.queue, rid < s.nrecs
  cB : ∀ q ∈ GoMap.entries s.cache, q.2 < s.nrecs
  clNot : s.dispPc ≠ DispPc.terminated → closedCount s.upstream = 0
  clLe : closedCount s.upstream ≤ 1
  stStop : s.dispPc = DispPc.stopping → s.stopFired = true
  stDone : s.dispPc = DispPc.closing ∨ s.dispPc = DispPc.terminated →
    s.stopFired = true ∧
      ∀ q ∈ GoMap.entries s.cache, (s.recs q.2).doneClosed = true

theorem inv_congr (s s' : Sys)
    (hrun : ∀ j, (s'.recs j).running = (s.recs j).running)
    (hdn : ∀ j, (s'.recs j).doneClosed = (s.recs j).doneClosed)
    (hfr : ∀ j, s.nrecs ≤ j → s'.recs j = s.recs j)
    (hn : s'.nrecs = s.nrecs)
    (hnew : ∀ rid, newCount s'.upstream rid = newCount s.upstream rid)
    (hcl : closedCount s'.upstream = closedCount s.upstream)
    (hq : s'.queue = s.queue)
    (hc : s'.cache = s.cache)
    (hw : ∀ rid, wcount s' rid = wcount s rid)
    (hwB : ∀ w ∈ s'.watchers, w.rid < s.nrecs)
    (hd : s'.dispPc = s.dispPc)
    (hsf : s'.stopFired = s.stopFired)
    (h : SysInv s) : SysInv s' := by
  refine ⟨?_, ?_, ?_, ?_, ?_, ?_, ?_, ?_, ?_, ?_, ?_, ?_, ?_, ?_, ?_, ?_⟩
  · intro rid; rw [hnew]; exact h.newLe rid
  · intro rid; rw [hw]; exact h.wLe rid
  · intro rid hr; rw [hnew]; exact h.runNew rid (by rw [hrun] at hr; exact hr)
  · intro rid hr
    rw [hw, hd]
    exact h.runW rid (by rw [hrun] at hr; exact hr)
  · intro rid hdp
    rw [hd] at hdp
    obtain ⟨a, b, c, e⟩ := h.stSpawn rid hdp
    exact ⟨by rw [hrun]; exact a, by rw [hw]; exact b,
      by rw [hnew]; exact c, by rw [hn]; exact e⟩
  · intro rid hdp
    rw [hd] at hdp
    obtain ⟨a, b, c, e⟩ := h.stSet rid hdp
    exact ⟨by rw [hrun]; exact a, by rw [hw]; exact b,
      by rw [hnew]; exact c, by rw [hn]; exact e⟩
  · intro rid hdp
    rw [hd] at hdp
    obtain ⟨a, b, c, e⟩ := h.stEmit rid hdp
    exact ⟨by rw [hrun]; exact a, by rw [hw]; exact b,
      by rw [hnew]; exact c, by rw [hn]; exact e⟩
  · intro rid hdp
    rw [hd] at hdp
    rw [hn]
    exact h.stRem rid hdp
  · intro j hj
    rw [hn] at hj
    rw [hfr j hj]
    exact h.freshR j hj
  · intro w hw2
    rw [hn]
    exact hwB w hw2
  · intro rid hrid
    rw [hn]
    exact h.qB rid (by rw [hq] at hrid; exact hrid)
  · intro q hq2
    rw [hn]
    exact h.cB q (by rw [hc] at hq2; exact hq2)
  · intro hne
    rw [hcl]
    exact h.clNot (by rw [hd] at hne; exact hne)
  · rw [hcl]; exact h.clLe
  · intro hdp
    rw [hsf]
    exact h.stStop (by rw [hd] at hdp; exact hdp)
  · intro hdp
    rw [hd] at hdp
    obtain ⟨a, b⟩ := h.stDone hdp
    refine ⟨by rw [hsf]; exact a, ?_⟩
    intro q hq2
    rw [hdn]
    exact b q (by rw [hc] at hq2; exact hq2)

theorem inv_initSys (tags : List String)
    (catO : List (PollResult (GoMap String (List String))))
    (instO : GoMap String (List (PollResult (List CatalogNode)))) :
    SysInv (initSys tags catO instO) := by
  refine ⟨?_, ?_, ?_, ?_, ?_, ?_, ?_, ?_, ?_, ?_, ?_, ?_, ?_, ?_, ?_, ?_⟩ <;>
    simp [initSys, newCount, wcount, closedCount, GoMap.entries,
      EmptyCollection.emptyCollection]

theorem inv_fireStop (s : Sys) (h : SysInv s) :
    SysInv { s with stopFired := true } := by
  refine ⟨h.newLe, h.wLe, h.runNew, h.runW, h.stSpawn, h.stSet, h.stEmit,
    h.stRem, h.freshR, h.wB, h.qB, h.cB, h.clNot, h.clLe, fun _ => rfl,
    ?_⟩
  intro hdp
  exact ⟨rfl, (h.stDone hdp).2⟩

theorem inv_of_eqs (s s' : Sys) (hrecs : s'.recs = s.recs)
    (hn : s'.nrecs = s.nrecs) (hup : s'.upstream = s.upstream)
    (hq : s'.queue = s.queue) (hc : s'.cache = s.cache)
    (hws : s'.watchers = s.watchers) (hd : s'.dispPc = s.dispPc)
    (hsf : s'.stopFired = s.stopFired) (h : SysInv s) : SysInv s' := by
  refine inv_congr s s' (fun j => by rw [hrecs]) (fun j => by rw [hrecs])
    (fun j _ => by rw [hrecs]) hn (fun rid => by rw [hup])
    (by rw [hup]) hq hc (fun rid => by simp [wcount, hws]) ?_ hd hsf h
  intro w hw
  rw [hws] at hw
  exact h.wB w hw

theorem inv_watStep (s : Sys) (h : SysInv s) (i : Nat) :
    SysInv (watStep s i) := by
  cases hg : s.watchers[i]? with
  | none => simpa [watStep, List.get?_eq_getElem?, hg] using h
  | some w =>
      obtain ⟨rid0, pc0⟩ := w
      have hget : s.watchers.get? i = some { rid := rid0, pc := pc0 } := by
        rw [List.get?_eq_getElem?]; exact hg
      have hmem : ({ rid := rid0, pc := pc0 } : Watcher) ∈ s.watchers :=
        List.get?_mem hget
      have hrid : rid0 < s.nrecs := h.wB _ hmem
      have hwc : ∀ (pc : WatPc) (rid : Nat),
          (s.watchers.set i { rid := rid0, pc := pc }).countP
            (fun x => x.rid == rid) =
          s.watchers.countP (fun x => x.rid == rid) := by
        intro pc rid
        exact countP_set_eq s.watchers i _ _ hget _ rfl
      have hwB2 : ∀ (pc : WatPc),
          ∀ x ∈ s.watchers.set i { rid := rid0, pc := pc },
            x.rid < s.nrecs := by
        intro pc x hx
        rcases List.mem_or_eq_of_mem_set hx with h1 | h1
        · exact h.wB x h1
        · subst h1; exact hrid
      cases pc0 with
      | poll =>
          simp only [watStep, List.get?_eq_getElem?, hg]
          split
          · exact h
          · exact h
          · split
            · exact inv_of_eqs s _ rfl rfl rfl rfl rfl rfl rfl rfl h
            · split
              · exact inv_of_eqs s _ rfl rfl rfl rfl rfl rfl rfl rfl h
              · refine inv_congr s _ ?_ ?_ ?_ rfl (fun _ => rfl) rfl
                  rfl rfl ?_ ?_ rfl rfl h
                · intro j
                  simp only [setWatcher, setRec]
                  by_cases hj : j = rid0
                  · subst hj; simp
                  · simp [hj]
                · intro j
                  simp only [setWatcher, setRec]
                  by_cases hj : j = rid0
                  · subst hj; simp
                  · simp [hj]
                · intro j hj
                  have hne : ¬ (j = rid0) := by omega
                  simp [setWatcher, setRec, hne]
                · intro rid
                  exact hwc WatPc.acquire rid
                · exact hwB2 WatPc.acquire
      | acquire =>
          simp only [watStep, List.get?_eq_getElem?, hg]
          by_cases hlk : s.lockHeld = true
          · rw [if_pos hlk]; exact h
          · rw [if_neg hlk]
            exact inv_congr s _ (fun j => rfl) (fun j => rfl)
              (fun j _ => rfl) rfl (fun _ => rfl) rfl rfl rfl
              (fun rid => hwc WatPc.checkDone rid) (hwB2 WatPc.checkDone)
              rfl rfl h
      | checkDone =>
          simp only [watStep, List.get?_eq_getElem?, hg]
          by_cases hdc : (s.recs rid0).doneClosed = true
          · rw [if_pos hdc]
            exact inv_congr s _ (fun j => rfl) (fun j => rfl)
              (fun j _ => rfl) rfl (fun _ => rfl) rfl rfl rfl
              (fun rid => hwc WatPc.returned rid) (hwB2 WatPc.returned)
              rfl rfl h
          · rw [if_neg hdc]
            exact inv_congr s _ (fun j => rfl) (fun j => rfl)
              (fun j _ => rfl) rfl (fun _ => rfl) rfl rfl rfl
              (fun rid => hwc WatPc.emitChanged rid) (hwB2 WatPc.emitChanged)
              rfl rfl h
      | emitChanged =>
          simp only [watStep, List.get?_eq_getElem?, hg]
          refine inv_congr s _ (fun j => rfl) (fun j => rfl)
            (fun j _ => rfl) rfl ?_ ?_ rfl rfl
            (fun rid => hwc WatPc.unlockStep rid) (hwB2 WatPc.unlockStep)
            rfl rfl h
          · intro rid
            show newCount (s.upstream ++
              [UpEv.ev rid0 (s.recs rid0).Name UpdateType.CHANGED
                (s.recs rid0).tag]) rid = newCount s.upstream rid
            unfold newCount
            rw [countP_append_one]
            simp [UpEv.isNewFor]
          · show closedCount (s.upstream ++
              [UpEv.ev rid0 (s.recs rid0).Name UpdateType.CHANGED
                (s.recs rid0).tag]) = closedCount s.upstream
            unfold closedCount
            rw [countP_append_one]
            simp
      | unlockStep =>
          simp only [watStep, List.get?_eq_getElem?, hg]
          exact inv_congr s _ (fun j => rfl) (fun j => rfl)
            (fun j _ => rfl) rfl (fun _ => rfl) rfl rfl rfl
            (fun rid => hwc WatPc.poll rid) (hwB2 WatPc.poll)
            rfl rfl h
      | returned =>
          simp only [watStep, List.get?_eq_getElem?, hg]
          exact h

theorem closeCachedRecs_running (s : Sys) (j : Nat) :
    (closeCachedRecs s j).running = (s.recs j).running := by
  unfold closeCachedRecs; split <;> rfl

theorem closeCachedRecs_of_notCached (s : Sys) (j : Nat)
    (hj : ∀ q ∈ GoMap.entries s.cache, q.2 ≠ j) :
    closeCachedRecs s j = s.recs j := by
  unfold closeCachedRecs
  rw [if_neg]
  intro hc
  rcases List.any_eq_true.mp hc with ⟨q, hq, hd⟩
  exact hj q hq (by simpa using hd)

theorem closeCachedRecs_cached (s : Sys) (q : String × Nat)
    (hq : q ∈ GoMap.entries s.cache) :
    (closeCachedRecs s q.2).doneClosed = true := by
  unfold closeCachedRecs
  rw [if_pos]
  exact List.any_eq_true.mpr ⟨q, hq, by simp⟩

theorem inv_dispStep (s : Sys) (h : SysInv s) (b : Bool) :
    SysInv (dispStep s b) := by
  cases hdp : s.dispPc with
  | select =>
      simp only [dispStep, hdp]
      by_cases hc1 : (s.stopFired && (b || s.queue.isEmpty)) = true
      · rw [if_pos hc1]
        have hsf : s.stopFired = true := by
          have h2 := hc1
          simp only [Bool.and_eq_true] at h2
          exact h2.1
        refine ⟨h.newLe, h.wLe, h.runNew, ?_, ?_, ?_, ?_, ?_, h.freshR,
          h.wB, h.qB, h.cB, ?_, h.clLe, ?_, ?_⟩
        · intro rid hr
          rcases h.runW rid hr with h1 | h1
          · exact Or.inl h1
          · rw [hdp] at h1; exact absurd h1 (by simp)
        · intro rid hx; exact absurd hx (by simp)
        · intro rid hx; exact absurd hx (by simp)
        · intro rid hx; exact absurd hx (by simp)
        · intro rid hx; rcases hx with hx | hx <;> exact absurd hx (by simp)
        · intro _; exact h.clNot (by rw [hdp]; simp)
        · intro _; exact hsf
        · intro hx; rcases hx with hx | hx <;> exact absurd hx (by simp)
      · rw [if_neg hc1]
        split
        · exact h
        · rename_i rid rest hq0
          have hridb : rid < s.nrecs :=
            h.qB rid (by rw [hq0]; exact List.mem_cons_self _ _)
          have hrest : ∀ r ∈ rest, r < s.nrecs :=
            fun r hr => h.qB r (by rw [hq0]; exact List.mem_cons_of_mem _ hr)
          by_cases hrem : (s.recs rid).removed = true
          · rw [if_pos hrem]
            refine ⟨h.newLe, h.wLe, h.runNew, ?_, ?_, ?_, ?_, ?_, h.freshR,
              h.wB, hrest, h.cB, ?_, h.clLe, ?_, ?_⟩
            · intro rid2 hr
              rcases h.runW rid2 hr with h1 | h1
              · exact Or.inl h1
              · rw [hdp] at h1; exact absurd h1 (by simp)
            · intro rid2 hx; exact absurd hx (by simp)
            · intro rid2 hx; exact absurd hx (by simp)
            · intro rid2 hx; exact absurd hx (by simp)
            · intro rid2 hx
              rcases hx with hx | hx
              · have h2 : rid = rid2 := by simpa using hx
                subst h2; exact hridb
              · exact absurd hx (by simp)
            · intro _; exact h.clNot (by rw [hdp]; simp)
            · intro hx; exact absurd hx (by simp)
            · intro hx; rcases hx with hx | hx <;> exact absurd hx (by simp)
          · rw [if_neg hrem]
            by_cases hrun2 : (!(s.recs rid).running) = true
            · rw [if_pos hrun2]
              have hrunf : (s.recs rid).running = false := by simpa using hrun2
              have hw0 : wcount s rid = 0 := by
                rcases h.runW rid hrunf with h1 | h1
                · exact h1
                · rw [hdp] at h1; exact absurd h1 (by simp)
              have hn0 : newCount s.upstream rid = 0 := h.runNew rid hrunf
              refine ⟨h.newLe, h.wLe, h.runNew, ?_, ?_, ?_, ?_, ?_, h.freshR,
                h.wB, hrest, h.cB, ?_, h.clLe, ?_, ?_⟩
              · intro rid2 hr
                rcases h.runW rid2 hr with h1 | h1
                · exact Or.inl h1
                · rw [hdp] at h1; exact absurd h1 (by simp)
              · intro rid2 hx
                have h2 : rid = rid2 := by simpa using hx
                subst h2
                exact ⟨hrunf, hw0, hn0, hridb⟩
              · intro rid2 hx; exact absurd hx (by simp)
              · intro rid2 hx; exact absurd hx (by simp)
              · intro rid2 hx
                rcases hx with hx | hx <;> exact absurd hx (by simp)
              · intro _; exact h.clNot (by rw [hdp]; simp)
              · intro hx; exact absurd hx (by simp)
              · intro hx; rcases hx with hx | hx <;> exact absurd hx (by simp)
            · rw [if_neg hrun2]
              refine ⟨h.newLe, h.wLe, h.runNew, ?_, ?_, ?_, ?_, ?_, h.freshR,
                h.wB, hrest, h.cB, ?_, h.clLe, ?_, ?_⟩
              · intro rid2 hr
                rcases h.runW rid2 hr with h1 | h1
                · exact Or.inl h1
                · rw [hdp] at h1; exact absurd h1 (by simp)
              · intro rid2 hx; exact absurd hx (by simp)
              · intro rid2 hx; exact absurd hx (by simp)
              · intro rid2 hx; exact absurd hx (by simp)
              · intro rid2 hx
                rcases hx with hx | hx <;> exact absurd hx (by simp)
              · intro _; exact h.clNot (by rw [hdp]; simp)
              · intro hx; exact absurd hx (by simp)
              · intro hx; rcases hx with hx | hx <;> exact absurd hx (by simp)
  | removedClose rid =>
      simp only [dispStep, hdp]
      have hridb : rid < s.nrecs := h.stRem rid (Or.inl hdp)
      refine ⟨h.newLe, h.wLe, ?_, ?_, ?_, ?_, ?_, ?_, ?_, h.wB, h.qB, h.cB,
        ?_, h.clLe, ?_, ?_⟩
      · intro rid2 hr
        apply h.runNew rid2
        by_cases hj : rid2 = rid
        · subst hj; simpa [setRec] using hr
        · simpa [setRec, hj] using hr
      · intro rid2 hr
        have hr2 : (s.recs rid2).running = false := by
          by_cases hj : rid2 = rid
          · subst hj; simpa [setRec] using hr
          · simpa [setRec, hj] using hr
        rcases h.runW rid2 hr2 with h1 | h1
        · exact Or.inl h1
        · rw [hdp] at h1; exact absurd h1 (by simp)
      · intro rid2 hx; exact absurd hx (by simp)
      · intro rid2 hx; exact absurd hx (by simp)
      · intro rid2 hx; exact absurd hx (by simp)
      · intro rid2 hx
        rcases hx with hx | hx
        · exact absurd hx (by simp)
        · have h2 : rid = rid2 := by simpa using hx
          subst h2; exact hridb
      · intro j hj
        have hj2 : s.nrecs ≤ j := hj
        have hne : ¬ (j = rid) := by omega
        simp only [setRec]
        rw [if_neg hne]
        exact h.freshR j hj2
      · intro _; exact h.clNot (by rw [hdp]; simp)
      · intro hx; exact absurd hx (by simp)
      · intro hx; rcases hx with hx | hx <;> exact absurd hx (by simp)
  | removedEmit rid =>
      simp only [dispStep, hdp]
      have hnp : ∀ rid2,
          newCount (s.upstream ++
            [UpEv.ev rid (s.recs rid).Name UpdateType.DELETED
              (s.recs rid).tag]) rid2 = newCount s.upstream rid2 := by
        intro rid2
        unfold newCount
        rw [countP_append_one]
        simp [UpEv.isNewFor]
      have hcp : closedCount (s.upstream ++
          [UpEv.ev rid (s.recs rid).Name UpdateType.DELETED
            (s.recs rid).tag]) = closedCount s.upstream := by
        unfold closedCount
        rw [countP_append_one]
        simp
      refine ⟨?_, h.wLe, ?_, ?_, ?_, ?_, ?_, ?_, h.freshR, h.wB, h.qB,
        h.cB, ?_, ?_, ?_, ?_⟩
      · intro rid2; rw [hnp]; exact h.newLe rid2
      · intro rid2 hr; rw [hnp]; exact h.runNew rid2 hr
      · intro rid2 hr
        rcases h.runW rid2 hr with h1 | h1
        · exact Or.inl h1
        · rw [hdp] at h1; exact absurd h1 (by simp)
      · intro rid2 hx; exact absurd hx (by simp)
      · intro rid2 hx; exact absurd hx (by simp)
      · intro rid2 hx; exact absurd hx (by simp)
      · intro rid2 hx; rcases hx with hx | hx <;> exact absurd hx (by simp)
      · intro _; rw [hcp]; exact h.clNot (by rw [hdp]; simp)
      · rw [hcp]; exact h.clLe
      · intro hx; exact absurd hx (by simp)
      · intro hx; rcases hx with hx | hx <;> exact absurd hx (by simp)
  | newSpawn rid =>
      simp only [dispStep, hdp]
      obtain ⟨hrf, hw0, hn0, hb⟩ := h.stSpawn rid hdp
      have hwapp : ∀ rid2,
          (s.watchers ++
            [({ rid := rid, pc := WatPc.poll } : Watcher)]).countP
            (fun x => x.rid == rid2) =
          s.watchers.countP (fun x => x.rid == rid2) +
            (if rid == rid2 then 1 else 0) := by
        intro rid2
        exact countP_append_one s.watchers _ _
      refine ⟨h.newLe, ?_, h.runNew, ?_, ?_, ?_, ?_, ?_, h.freshR, ?_,
        h.qB, h.cB, ?_, h.clLe, ?_, ?_⟩
      · intro rid2
        show (s.watchers ++ [_]).countP _ ≤ 1
        rw [hwapp]
        by_cases h2 : rid = rid2
        · subst h2
          have : s.watchers.countP (fun x => x.rid == rid) = 0 := hw0
          simp [this]
        · have hbeq : (rid == rid2) = false := by simp [h2]
          rw [hbeq]
          simpa using h.wLe rid2
      · intro rid2 hr
        by_cases h2 : rid2 = rid
        · subst h2; exact Or.inr rfl
        · left
          rcases h.runW rid2 hr with h1 | h1
          · show (s.watchers ++ [_]).countP _ = 0
            rw [hwapp]
            have hbeq : (rid == rid2) = false := by
              simp only [beq_eq_false_iff_ne, ne_eq]
              exact fun e => h2 e.symm
            simp only [hbeq, Bool.false_eq_true, if_false, Nat.add_zero]
            exact h1
          · rw [hdp] at h1; exact absurd h1 (by simp)
      · intro rid2 hx; exact absurd hx (by simp)
      · intro rid2 hx
        have h2 : rid = rid2 := by simpa using hx
        subst h2
        refine ⟨hrf, ?_, hn0, hb⟩
        show (s.watchers ++ [_]).countP _ = 1
        rw [hwapp]
        have : s.watchers.countP (fun x => x.rid == rid) = 0 := hw0
        simp [this]
      · intro rid2 hx; exact absurd hx (by simp)
      · intro rid2 hx; rcases hx with hx | hx <;> exact absurd hx (by simp)
      · intro x hx
        rcases List.mem_append.mp hx with h1 | h1
        · exact h.wB x h1
        · rw [List.mem_singleton] at h1
          subst h1; exact hb
      · intro _; exact h.clNot (by rw [hdp]; simp)
      · intro hx; exact absurd hx (by simp)
      · intro hx; rcases hx with hx | hx <;> exact absurd hx (by simp)
  | newSetRunning rid =>
      simp only [dispStep, hdp]
      obtain ⟨hrf, hw1, hn0, hb⟩ := h.stSet rid hdp
      refine ⟨h.newLe, h.wLe, ?_, ?_, ?_, ?_, ?_, ?_, ?_, h.wB, h.qB,
        h.cB, ?_, h.clLe, ?_, ?_⟩
      · intro rid2 hr
        by_cases hj : rid2 = rid
        · subst hj
          have : False := by simpa [setRec] using hr
          exact absurd this (by simp)
        · exact h.runNew rid2 (by simpa [setRec, hj] using hr)
      · intro rid2 hr
        by_cases hj : rid2 = rid
        · subst hj
          have : False := by simpa [setRec] using hr
          exact absurd this (by simp)
        · have hr2 : (s.recs rid2).running = false := by
            simpa [setRec, hj] using hr
          rcases h.runW rid2 hr2 with h1 | h1
          · exact Or.inl h1
          · rw [hdp] at h1
            have h2 : rid = rid2 := by simpa using h1
            exact absurd h2 (fun e => hj e.symm)
      · intro rid2 hx; exact absurd hx (by simp)
      · intro rid2 hx; exact absurd hx (by simp)
      · intro rid2 hx
        have h2 : rid = rid2 := by simpa using hx
        subst h2
        refine ⟨by simp [setRec], hw1, hn0, hb⟩
      · intro rid2 hx; rcases hx with hx | hx <;> exact absurd hx (by simp)
      · intro j hj
        have hj2 : s.nrecs ≤ j := hj
        have hne : ¬ (j = rid) := by omega
        simp only [setRec]
        rw [if_neg hne]
        exact h.freshR j hj2
      · intro _; exact h.clNot (by rw [hdp]; simp)
      · intro hx; exact absurd hx (by simp)
      · intro hx; rcases hx with hx | hx <;> exact absurd hx (by simp)
  | newEmit rid =>
      simp only [dispStep, hdp]
      obtain ⟨hrt, hw1, hn0, hb⟩ := h.stEmit rid hdp
      have hnp : ∀ rid2,
          newCount (s.upstream ++
            [UpEv.ev rid (s.recs rid).Name UpdateType.NEW
              (s.recs rid).tag]) rid2 =
          newCount s.upstream rid2 + (if rid == rid2 then 1 else 0) := by
        intro rid2
        unfold newCount
        rw [countP_append_one]
        rfl
      have hcp : closedCount (s.upstream ++
          [UpEv.ev rid (s.recs rid).Name UpdateType.NEW
            (s.recs rid).tag]) = closedCount s.upstream := by
        unfold closedCount
        rw [countP_append_one]
        simp
      refine ⟨?_, h.wLe, ?_, ?_, ?_, ?_, ?_, ?_, h.freshR, h.wB, h.qB,
        h.cB, ?_, ?_, ?_, ?_⟩
      · intro rid2
        rw [hnp]
        by_cases h2 : rid = rid2
        · subst h2
          rw [hn0]
          simp
        · have hbeq : (rid == rid2) = false := by simp [h2]
          rw [hbeq]
          simpa using h.newLe rid2
      · intro rid2 hr
        rw [hnp]
        by_cases h2 : rid2 = rid
        · subst h2
          rw [hrt] at hr
          exact absurd hr (by simp)
        · have hbeq : (rid == rid2) = false := by
            simp only [beq_eq_false_iff_ne, ne_eq]
            exact fun e => h2 e.symm
          rw [hbeq]
          simpa using h.runNew rid2 hr
      · intro rid2 hr
        rcases h.runW rid2 hr with h1 | h1
        · exact Or.inl h1
        · rw [hdp] at h1; exact absurd h1 (by simp)
      · intro rid2 hx; exact absurd hx (by simp)
      · intro rid2 hx; exact absurd hx (by simp)
      · intro rid2 hx; exact absurd hx (by simp)
      · intro rid2 hx; rcases hx with hx | hx <;> exact absurd hx (by simp)
      · intro _; rw [hcp]; exact h.clNot (by rw [hdp]; simp)
      · rw [hcp]; exact h.clLe
      · intro hx; exact absurd hx (by simp)
      · intro hx; rcases hx with hx | hx <;> exact absurd hx (by simp)
  | stopping =>
      simp only [dispStep, hdp]
      by_cases hlk : s.lockHeld = true
      · rw [if_pos hlk]; exact h
      · rw [if_neg hlk]
        have hsf : s.stopFired = true := h.stStop hdp
        refine ⟨h.newLe, h.wLe, ?_, ?_, ?_, ?_, ?_, ?_, ?_, h.wB, h.qB,
          h.cB, ?_, h.clLe, ?_, ?_⟩
        · intro rid2 hr
          rw [closeCachedRecs_running] at hr
          exact h.runNew rid2 hr
        · intro rid2 hr
          rw [closeCachedRecs_running] at hr
          rcases h.runW rid2 hr with h1 | h1
          · exact Or.inl h1
          · rw [hdp] at h1; exact absurd h1 (by simp)
        · intro rid2 hx; exact absurd hx (by simp)
        · intro rid2 hx; exact absurd hx (by simp)
        · intro rid2 hx; exact absurd hx (by simp)
        · intro rid2 hx; rcases hx with hx | hx <;> exact absurd hx (by simp)
        · intro j hj
          have hj2 : s.nrecs ≤ j := hj
          show closeCachedRecs s j = freshService "" ""
          rw [closeCachedRecs_of_notCached s j ?_]
          · exact h.freshR j hj2
          · intro q hq
            have := h.cB q hq
            omega
        · intro _; exact h.clNot (by rw [hdp]; simp)
        · intro hx; exact absurd hx (by simp)
        · intro hx
          refine ⟨hsf, ?_⟩
          intro q hq
          exact closeCachedRecs_cached s q hq
  | closing =>
      simp only [dispStep, hdp]
      have h0 : closedCount s.upstream = 0 := h.clNot (by rw [hdp]; simp)
      have hD := h.stDone (Or.inl hdp)
      have hnp : ∀ rid2,
          newCount (s.upstream ++ [UpEv.closed]) rid2 =
            newCount s.upstream rid2 := by
        intro rid2
        unfold newCount
        rw [countP_append_one]
        simp [UpEv.isNewFor]
      refine ⟨?_, h.wLe, ?_, ?_, ?_, ?_, ?_, ?_, h.freshR, h.wB, h.qB,
        h.cB, ?_, ?_, ?_, ?_⟩
      · intro rid2; rw [hnp]; exact h.newLe rid2
      · intro rid2 hr; rw [hnp]; exact h.runNew rid2 hr
      · intro rid2 hr
        rcases h.runW rid2 hr with h1 | h1
        · exact Or.inl h1
        · rw [hdp] at h1; exact absurd h1 (by simp)
      · intro rid2 hx; exact absurd hx (by simp)
      · intro rid2 hx; exact absurd hx (by simp)
      · intro rid2 hx; exact absurd hx (by simp)
      · intro rid2 hx; rcases hx with hx | hx <;> exact absurd hx (by simp)
      · intro hne; exact absurd rfl hne
      · show closedCount (s.upstream ++ [UpEv.closed]) ≤ 1
        unfold closedCount
        rw [countP_append_one]
        have h0' : s.upstream.countP
            (fun e => match e with
              | UpEv.closed => true
              | _ => false) = 0 := h0
        rw [h0']
        simp
      · intro hx; exact absurd hx (by simp)
      · intro _; exact ⟨hD.1, hD.2⟩
  | terminated => simpa [dispStep, hdp] using h

theorem inv_sysAdditions :
    ∀ (l : List (String × List String)) (s : Sys),
    SysInv s → s.stopFired = false →
    SysInv (sysAdditions s l) ∧ (sysAdditions s l).stopFired = false := by
  intro l
  induction l with
  | nil => intro s h hsf; exact ⟨h, hsf⟩
  | cons p rest ih =>
      obtain ⟨k, v⟩ := p
      intro s h hsf
      simp only [sysAdditions]
      by_cases h1 : (scanTags s.tagsToWatch v).ignore = true
      · rw [if_pos h1]; exact ih s h hsf
      · rw [if_neg h1]
        by_cases h2 : GoMap.contains s.cache k = true
        · rw [if_pos h2]; exact ih s h hsf
        · rw [if_neg h2]
          have hfresh0 : s.recs s.nrecs = freshService "" "" :=
            h.freshR s.nrecs (Nat.le_refl _)
          have hrun0 : (s.recs s.nrecs).running = false := by
            rw [hfresh0]; rfl
          refine ih _ ⟨?_, ?_, ?_, ?_, ?_, ?_, ?_, ?_, ?_, ?_, ?_, ?_, ?_,
            ?_, ?_, ?_⟩ hsf
          · exact h.newLe
          · exact h.wLe
          · intro j hr
            by_cases hj : j = s.nrecs
            · exact h.runNew j (by rw [hj]; exact hrun0)
            · exact h.runNew j (by simpa [setRec, hj] using hr)
          · intro j hr
            by_cases hj : j = s.nrecs
            · rcases h.runW j (by rw [hj]; exact hrun0) with hA | hA
              · exact Or.inl hA
              · obtain ⟨_, _, _, hlt⟩ := h.stSet j hA
                exact absurd hlt (by rw [hj]; omega)
            · have hr2 : (s.recs j).running = false := by
                simpa [setRec, hj] using hr
              rcases h.runW j hr2 with hA | hA
              · exact Or.inl hA
              · exact Or.inr hA
          · intro j hx
            obtain ⟨a, b2, c, d⟩ := h.stSpawn j hx
            have hne : ¬ (j = s.nrecs) := by omega
            refine ⟨?_, b2, c, ?_⟩
            · show ((setRec s s.nrecs _).recs j).running = false
              simp only [setRec]
              rw [if_neg hne]
              exact a
            · show j < s.nrecs + 1
              omega
          · intro j hx
            obtain ⟨a, b2, c, d⟩ := h.stSet j hx
            have hne : ¬ (j = s.nrecs) := by omega
            refine ⟨?_, b2, c, ?_⟩
            · show ((setRec s s.nrecs _).recs j).running = false
              simp only [setRec]
              rw [if_neg hne]
              exact a
            · show j < s.nrecs + 1
              omega
          · intro j hx
            obtain ⟨a, b2, c, d⟩ := h.stEmit j hx
            have hne : ¬ (j = s.nrecs) := by omega
            refine ⟨?_, b2, c, ?_⟩
            · show ((setRec s s.nrecs _).recs j).running = true
              simp only [setRec]
              rw [if_neg hne]
              exact a
            · show j < s.nrecs + 1
              omega
          · intro j hx
            have := h.stRem j hx
            show j < s.nrecs + 1
            omega
          · intro j hj
            have hj2 : s.nrecs + 1 ≤ j := hj
            have hne : ¬ (j = s.nrecs) := by omega
            simp only [setRec]
            rw [if_neg hne]
            exact h.freshR j (by omega)
          · intro x hx
            have := h.wB x hx
            show x.rid < s.nrecs + 1
            omega
          · intro r hr
            show r < s.nrecs + 1
            rcases List.mem_append.mp hr with hA | hA
            · have := h.qB r hA; omega
            · rw [List.mem_singleton] at hA; omega
          · intro q hq
            show q.2 < s.nrecs + 1
            refine entries_insert_pred (fun q => q.2 < s.nrecs + 1) k
              s.nrecs s.cache ?_ ?_ q hq
            · intro q2 hq2
              have := h.cB q2 hq2
              omega
            · intro a; omega
          · intro hne; exact h.clNot hne
          · exact h.clLe
          · intro hx; exact h.stStop hx
          · intro hx
            exact absurd (h.stDone hx).1 (by rw [hsf]; simp)

theorem inv_sysRemovals (svc : GoMap String (List String)) :
    ∀ (l : List (String × Nat)) (s : Sys),
    SysInv s → s.stopFired = false → (∀ q ∈ l, q.2 < s.nrecs) →
    SysInv (sysRemovals svc s l) ∧ (sysRemovals svc s l).stopFired = false := by
  intro l
  induction l with
  | nil => intro s h hsf _; exact ⟨h, hsf⟩
  | cons p rest ih =>
      obtain ⟨name, rid⟩ := p
      intro s h hsf hl
      simp only [sysRemovals]
      by_cases h1 : GoMap.contains svc name = true
      · rw [if_pos h1]
        exact ih s h hsf (fun q hq => hl q (List.mem_cons_of_mem _ hq))
      · rw [if_neg h1]
        have hridb : rid < s.nrecs := hl (name, rid) (List.mem_cons_self _ _)
        refine ih _ ⟨?_, ?_, ?_, ?_, ?_, ?_, ?_, ?_, ?_, ?_, ?_, ?_, ?_,
          ?_, ?_, ?_⟩ hsf ?_
        · exact h.newLe
        · exact h.wLe
        · intro j hr
          by_cases hj : j = rid
          · subst hj
            exact h.runNew j (by simpa [setRec] using hr)
          · exact h.runNew j (by simpa [setRec, hj] using hr)
        · intro j hr
          have hr2 : (s.recs j).running = false := by
            by_cases hj : j = rid
            · subst hj; simpa [setRec] using hr
            · simpa [setRec, hj] using hr
          rcases h.runW j hr2 with hA | hA
          · exact Or.inl hA
          · exact Or.inr hA
        · intro j hx
          obtain ⟨a, b2, c, d⟩ := h.stSpawn j hx
          refine ⟨?_, b2, c, d⟩
          show ((setRec s rid _).recs j).running = false
          simp only [setRec]
          by_cases hj : j = rid
          · subst hj; simpa using a
          · rw [if_neg hj]; exact a
        · intro j hx
          obtain ⟨a, b2, c, d⟩ := h.stSet j hx
          refine ⟨?_, b2, c, d⟩
          show ((setRec s rid _).recs j).running = false
          simp only [setRec]
          by_cases hj : j = rid
          · subst hj; simpa using a
          · rw [if_neg hj]; exact a
        · intro j hx
          obtain ⟨a, b2, c, d⟩ := h.stEmit j hx
          refine ⟨?_, b2, c, d⟩
          show ((setRec s rid _).recs j).running = true
          simp only [setRec]
          by_cases hj : j = rid
          · subst hj; simpa using a
          · rw [if_neg hj]; exact a
        · intro j hx; exact h.stRem j hx
        · intro j hj
          have hj2 : s.nrecs ≤ j := hj
          have hne : ¬ (j = rid) := by omega
          simp only [setRec]
          rw [if_neg hne]
          exact h.freshR j hj2
        · exact h.wB
        · intro r hr
          show r < s.nrecs
          rcases List.mem_append.mp hr with hA | hA
          · exact h.qB r hA
          · rw [List.mem_singleton] at hA; omega
        · intro q hq
          show q.2 < s.nrecs
          exact entries_erase_pred (fun q => q.2 < s.nrecs) name s.cache
            h.cB q hq
        · intro hne; exact h.clNot hne
        · exact h.clLe
        · intro hx; exact h.stStop hx
        · intro hx
          exact absurd (h.stDone hx).1 (by rw [hsf]; simp)
        · intro q hq
          exact hl q (List.mem_cons_of_mem _ hq)

theorem inv_catStep (s : Sys) (h : SysInv s) : SysInv (catStep s) := by
  cases hcp : s.catPc with
  | poll =>
      simp only [catStep, hcp]
      split
      · exact h
      · split
        · exact inv_of_eqs s _ rfl rfl rfl rfl rfl rfl rfl rfl h
        · split
          · exact inv_of_eqs s _ rfl rfl rfl rfl rfl rfl rfl rfl h
          · exact inv_of_eqs s _ rfl rfl rfl rfl rfl rfl rfl rfl h
  | process services =>
      simp only [catStep, hcp]
      by_cases hlk : s.lockHeld = true
      · rw [if_pos hlk]; exact h
      · rw [if_neg hlk]
        by_cases hsf : s.stopFired = true
        · rw [if_pos hsf]
          exact inv_of_eqs s _ rfl rfl rfl rfl rfl rfl rfl rfl h
        · rw [if_neg hsf]
          have hsf2 : s.stopFired = false := by
            cases hx : s.stopFired
            · rfl
            · exact absurd hx hsf
          obtain ⟨hA, hAsf⟩ :=
            inv_sysAdditions (GoMap.entries services) s h hsf2
          obtain ⟨hB, _⟩ := inv_sysRemovals services
            (GoMap.entries (sysAdditions s (GoMap.entries services)).cache)
            (sysAdditions s (GoMap.entries services)) hA hAsf hA.cB
          exact ⟨hB.newLe, hB.wLe, hB.runNew, hB.runW, hB.stSpawn,
            hB.stSet, hB.stEmit, hB.stRem, hB.freshR, hB.wB, hB.qB,
            hB.cB, hB.clNot, hB.clLe, hB.stStop, hB.stDone⟩
  | stopped => simpa [catStep, hcp] using h

theorem inv_sysStep (s : Sys) (h : SysInv s) (d : Dir) :
    SysInv (sysStep s d) := by
  cases d with
  | cat => exact inv_catStep s h
  | disp b => exact inv_dispStep s h b
  | watch i => exact inv_watStep s h i
  | fireStop => exact inv_fireStop s h

theorem inv_sysRun (ds : List Dir) :
    ∀ s : Sys, SysInv s → SysInv (sysRun s ds) := by
  induction ds with
  | nil => intro s h; exact h
  | cons d ds ih => intro s h; exact ih _ (inv_sysStep s h d)

/-- C4 amended: over every interleaving of the watcher's goroutines and
every remote behaviour, at most one NEW event is emitted per
Watched-Service record (the `running` guard in the dispatch loop);
the NEW-before-CHANGED and no-CHANGED-after-DELETED orderings are not
guaranteed (see the counterexample). -/
theorem claim_C4_amended_at_most_one_new (tags : List String)
    (catO : List (PollResult (GoMap String (List String))))
    (instO : GoMap String (List (PollResult (List CatalogNode))))
    (ds : List Dir) (rid : Nat) :
    newCount (sysRun (initSys tags catO instO) ds).upstream rid ≤ 1 :=
  (inv_sysRun ds _ (inv_initSys tags catO instO)).newLe rid

/-- C5 amended: over every interleaving, at most one per-service watch
loop is ever spawned per Watched-Service record; but the `running`
check and set are performed by the dispatch loop WITHOUT the cache
lock (its handling contains no lock operation at all). -/
theorem claim_C5_amended_single_watcher :
    (∀ (tags : List String)
       (catO : List (PollResult (GoMap String (List String))))
       (instO : GoMap String (List (PollResult (List CatalogNode))))
       (ds : List Dir) (rid : Nat),
       wcount (sysRun (initSys tags catO instO) ds) rid ≤ 1) ∧
    (∀ srv : ConsulService,
       Ev.lock ∉ (runHandleUpdate srv).2 ∧
       Ev.unlock ∉ (runHandleUpdate srv).2) := by
  refine ⟨fun tags catO instO ds rid =>
    (inv_sysRun ds _ (inv_initSys tags catO instO)).wLe rid, ?_⟩
  intro srv
  unfold runHandleUpdate
  by_cases h1 : srv.removed = true
  · simp [h1]
  · by_cases h2 : srv.running = true <;> simp [h1, h2]

/-- C7 amended: the consumer channel is closed at most once, and only
by the terminated dispatch loop after the stop signal, with every
record still in the cache at that point having its done channel
closed; but a per-service loop may keep running past the close (it
only observes cancellation at its next index-changing poll), and a
record that left the cache while still queued is never cancelled by
`stop`, so its loop can even emit after the close (see the
counterexample). -/
theorem claim_C7_amended_shutdown_order (tags : List String)
    (catO : List (PollResult (GoMap String (List String))))
    (instO : GoMap String (List (PollResult (List CatalogNode))))
    (ds : List Dir) :
    closedCount (sysRun (initSys tags catO instO) ds).upstream ≤ 1 ∧
    (UpEv.closed ∈ (sysRun (initSys tags catO instO) ds).upstream →
      (sysRun (initSys tags catO instO) ds).dispPc = DispPc.terminated ∧
      (sysRun (initSys tags catO instO) ds).stopFired = true ∧
      ∀ q ∈ GoMap.entries (sysRun (initSys tags catO instO) ds).cache,
        ((sysRun (initSys tags catO instO) ds).recs q.2).doneClosed =
          true) := by
  have hI := inv_sysRun ds _ (inv_initSys tags catO instO)
  refine ⟨hI.clLe, ?_⟩
  intro hmem
  have hterm : (sysRun (initSys tags catO instO) ds).dispPc =
      DispPc.terminated := by
    by_contra hne
    have h0 := hI.clNot hne
    have hpos : 0 <
        closedCount (sysRun (initSys tags catO instO) ds).upstream := by
      unfold closedCount
      exact List.countP_pos.mpr ⟨UpEv.closed, hmem, rfl⟩
    omega
  obtain ⟨hsf, hdall⟩ := hI.stDone (Or.inr hterm)
  exact ⟨hterm, hsf, hdall⟩

/-- Witness for the amended C7 at a concrete run that does reach the
channel close: the close happened at most once and the dispatch loop
had terminated. -/
theorem claim_C7_amended_shutdown_order_witness :
    closedCount (sysRun (initSys ["prod"] c7catO demoInstO)
      c7dirs).upstream ≤ 1 ∧
    (sysRun (initSys ["prod"] c7catO demoInstO) c7dirs).dispPc =
      DispPc.terminated := by
  have h := claim_C7_amended_shutdown_order ["prod"] c7catO demoInstO c7dirs
  exact ⟨h.1, (h.2 (by decide)).1⟩
